import Mathlib

/-!
Verification of the SBITS storage engine (`src/src/sbits/sbits.c`) against
its natural-language specification.  The development has two layers:

* a state machine for the circular data log, translated from `writePage`
  and the physical-page mapping used by `linearSearch`;
* a functional model of the engine surface (`sbitsPut`, `sbitsFlush`,
  `sbitsGet`, `sbitsPutVar`, `sbitsGetVar`), with pages as record lists
  in logical order.  The spline search structure (`spline.c`) is not part
  of the sources and is modelled from the specification, as flagged on
  the corresponding definitions.
-/

set_option maxRecDepth 10000

namespace SBITS

/-! ## Part 1: the circular data-log state machine (`writePage`) -/

/-- State of the data stream's circular log: the fields of `sbitsState`
read and written by `writePage` (sbits.c:1588-1643) together with the
configuration fields it consults.  `startDataPage` is set to 0 by
`sbitsInitData` (sbits.c:271).  `minKey` and `avgKeyDiff` are kept as
unbounded naturals; the C fields are unsigned machine integers whose
width (declared in the absent `sbits.h`) is never reached in the
configurations considered here. -/
structure LogState where
  startDataPage : Nat
  endDataPage : Nat
  eraseSizeInPages : Nat
  maxRecordsPerPage : Nat
  nextPageId : Nat
  nextPageWriteId : Nat
  erasedEndPage : Nat
  firstDataPage : Nat
  firstDataPageId : Nat
  wrappedMemory : Nat
  minKey : Nat
  avgKeyDiff : Nat
deriving Repr, DecidableEq

/-- Initial data-log state, from `sbitsInitData` (sbits.c:268-276) and
`sbitsInit` (sbits.c:197: `minKey = UINT32_MAX`). -/
def initLog (numPages eraseSize maxRecs : Nat) : LogState :=
  { startDataPage := 0
    endDataPage := numPages
    eraseSizeInPages := eraseSize
    maxRecordsPerPage := maxRecs
    nextPageId := 0
    nextPageWriteId := 0
    erasedEndPage := 0
    firstDataPage := 0
    firstDataPageId := 0
    wrappedMemory := 0
    minKey := 2 ^ 32 - 1
    avgKeyDiff := 1 }

/-- New value of `erasedEndPage` chosen by the erase-ahead branch
(sbits.c:1599-1604): a whole erase block, except one page less the very
first time to account for page 0. -/
def newErasedEnd (s : LogState) : Nat :=
  if s.erasedEndPage ≠ 0 then s.erasedEndPage + s.eraseSizeInPages
  else s.erasedEndPage + (s.eraseSizeInPages - 1)

/-- Erase-ahead branch of `writePage` (sbits.c:1598-1614). -/
def eraseAhead (s : LogState) : LogState :=
  if s.erasedEndPage ≤ s.nextPageWriteId ∧
      s.nextPageWriteId + s.eraseSizeInPages < s.endDataPage then
    if s.wrappedMemory ≠ 0 then
      { s with erasedEndPage := newErasedEnd s
               firstDataPage := newErasedEnd s + 1
               firstDataPageId := s.firstDataPageId + s.eraseSizeInPages
               minKey := s.minKey +
                 s.eraseSizeInPages * s.avgKeyDiff * s.maxRecordsPerPage }
    else { s with erasedEndPage := newErasedEnd s }
  else s

/-- Wrap branch of `writePage` (sbits.c:1616-1633): when the next
physical slot reaches the end of the data region, reclaim the first erase
block and restart writing at `startDataPage`. -/
def wrapData (s : LogState) : LogState :=
  if s.endDataPage ≤ s.nextPageWriteId then
    { s with firstDataPageId := s.firstDataPageId + s.eraseSizeInPages
             erasedEndPage := s.startDataPage + s.eraseSizeInPages - 1
             firstDataPage := (s.startDataPage + s.eraseSizeInPages - 1) + 1
             wrappedMemory := 1
             nextPageWriteId := s.startDataPage
             minKey := s.minKey +
               s.eraseSizeInPages * s.avgKeyDiff * s.maxRecordsPerPage }
  else s

/-- Logical-id stamp at the top of `writePage` (sbits.c:1593-1596). -/
def stampId (s : LogState) : LogState :=
  { s with nextPageId := s.nextPageId + 1 }

/-- Advance past the slot just written (sbits.c:1639). -/
def advanceWrite (s : LogState) : LogState :=
  { s with nextPageWriteId := s.nextPageWriteId + 1 }

/-- `writePage` (sbits.c:1588-1643): stamp the next logical id, run the
erase-ahead and wrap branches, write at `nextPageWriteId`, advance. -/
def writePage (s : LogState) : LogState :=
  advanceWrite (wrapData (eraseAhead (stampId s)))

/-- States of the data log reachable by `put`/`flush`: every data-page
write goes through `writePage`; between writes `sbitsPut` may update
`avgKeyDiff` (`updateAverageKeyDifference`), which the step closes over. -/
inductive ReachableLog : LogState → Prop where
  | init : ∀ numPages eraseSize maxRecs,
      ReachableLog (initLog numPages eraseSize maxRecs)
  | step : ∀ s a, ReachableLog s →
      ReachableLog (writePage { s with avgKeyDiff := a })

/-- Iterated plain `writePage`, used to exhibit concrete reachable
states. -/
def writeRun : Nat → LogState → LogState
  | 0, s => s
  | n + 1, s => writePage (writeRun n s)

/-- The physical page consulted when a lookup reads logical page `l`:
`linearSearch` computes `physPageId = pageId % state->endDataPage`
(sbits.c:982). -/
def readPhysicalPage (s : LogState) (l : Nat) : Nat :=
  l % s.endDataPage

/-- The physical page the specification's read protocol prescribes for
logical page `l`: `(l + firstPhysicalPage − firstLogicalPageId) mod
(endPage − startPage)` (spec.md §4.C). -/
def specMappedPage (s : LogState) (l : Nat) : Int :=
  ((l : Int) + (s.firstDataPage : Int) - (s.firstDataPageId : Int)) %
    ((s.endDataPage : Int) - (s.startDataPage : Int))

/-- Configuration restriction under which the specification's mapping
formula agrees with the code: the erase block is at least two pages and
divides the size of the data region. -/
def GoodLogCfg (s : LogState) : Prop :=
  2 ≤ s.eraseSizeInPages ∧ s.eraseSizeInPages ∣ s.endDataPage ∧
    0 < s.endDataPage ∧ s.startDataPage = 0

instance (s : LogState) : Decidable (GoodLogCfg s) := by
  unfold GoodLogCfg; infer_instance

/-- Inductive invariant of the data log used to relate the two page
mappings. -/
def LogInv (s : LogState) : Prop :=
  s.nextPageWriteId ≤ s.endDataPage ∧
  (if s.wrappedMemory = 0 then s.firstDataPage = 0 ∧ s.firstDataPageId = 0
   else
     s.firstDataPage = s.erasedEndPage + 1 ∧
     s.eraseSizeInPages ∣ s.firstDataPage ∧
     s.firstDataPage % s.endDataPage = s.firstDataPageId % s.endDataPage ∧
     s.eraseSizeInPages - 1 ≤ s.erasedEndPage ∧
     s.firstDataPage ≤ s.endDataPage ∧
     (s.nextPageWriteId ≤ s.erasedEndPage ∨ s.firstDataPage = s.endDataPage))

/-! ## Part 2: functional model of the engine surface -/

/-- A fixed-size record: key, data, and the 4-byte variable-data offset
field, present exactly when the store is configured with variable data
(sbits.c:173-176). -/
structure Rec where
  key : Nat
  data : Nat
  varOff : Option Nat
deriving Repr, DecidableEq

/-- A data page, as the list of its records in insertion order. -/
abbrev Page := List Rec

/-- Sentinel offset marking a record that carries no blob. -/
def SBITS_NO_VAR_DATA : Nat := 4294967295

/-- `sbitsGetMinKey` (sbits.c:147-149): the key of record 0.  On a
freshly initialized empty page the record area is all zeroes
(`initBufferPage`, sbits.c:102-104), so the value read is 0. -/
def pageMinKey (p : Page) : Nat := ((p.head?).map Rec.key).getD 0

/-- `sbitsGetMaxKey` (sbits.c:156-159): the key of record count−1.  On
an empty page the C code reads bytes inside the page header; no theorem
below depends on that value and the default here is 0. -/
def pageMaxKey (p : Page) : Nat := ((p.getLast?).map Rec.key).getD 0

/-- Modelled from the spec: `spline.c` is not among the sources.  Slope
comparison from anchor `A` to corridor points `P` and `Q` by
cross-multiplication; both points lie strictly to the right of `A`
whenever the comparison is consulted (§4.D: cone of admissible slopes).
-/
def slopeLe (A : Nat × Nat) (P Q : Nat × Int) : Prop :=
  (P.2 - (A.2 : Int)) * ((Q.1 : Int) - (A.1 : Int)) ≤
    (Q.2 - (A.2 : Int)) * ((P.1 : Int) - (A.1 : Int))

instance (A : Nat × Nat) (P Q : Nat × Int) : Decidable (slopeLe A P Q) := by
  unfold slopeLe; infer_instance

/-- View a knot as a corridor point. -/
def toPt (p : Nat × Nat) : Nat × Int := (p.1, (p.2 : Int))

/-- Modelled from the spec (§3 Spline knot, §4.D): the spline keeps its
knot list in ascending key order; the most recent input point is the
tentative final knot, and the pending register of two points
(`corrUp`, `corrLo`) records the cone of admissible slopes from the last
committed knot. -/
structure Spline where
  pts : List (Nat × Nat)
  corrUp : Nat × Int
  corrLo : Nat × Int
  maxError : Nat
deriving Repr, DecidableEq

/-- Modelled from the spec: an empty spline with the configured
`indexMaxError`. -/
def splineInit (maxError : Nat) : Spline :=
  { pts := [], corrUp := (0, 0), corrLo := (0, 0), maxError := maxError }

/-- The last committed knot, from which the current cone of admissible
slopes opens (the knot before the tentative final one). -/
def anchor (s : Spline) : Nat × Nat := s.pts.getD (s.pts.length - 2) (0, 0)

/-- Modelled from the spec (§4.D Spline insertion): with fewer than two
knots, append; otherwise absorb the new point into the tentative last
segment while it stays inside the cone, else commit the tentative knot
and restart the cone from it. -/
def splineAdd (s : Spline) (x y : Nat) : Spline :=
  match s.pts with
  | [] => { s with pts := [(x, y)] }
  | [q] =>
    { s with pts := [q, (x, y)],
             corrUp := (x, (y : Int) + (s.maxError : Int)),
             corrLo := (x, (y : Int) - (s.maxError : Int)) }
  | _ :: _ :: _ =>
    if slopeLe (anchor s) (toPt (x, y)) s.corrUp ∧
        slopeLe (anchor s) s.corrLo (toPt (x, y)) then
      { s with pts := s.pts.dropLast ++ [(x, y)],
               corrUp :=
                 if slopeLe (anchor s) (x, (y : Int) + (s.maxError : Int))
                     s.corrUp
                 then (x, (y : Int) + (s.maxError : Int)) else s.corrUp,
               corrLo :=
                 if slopeLe (anchor s) s.corrLo
                     (x, (y : Int) - (s.maxError : Int))
                 then (x, (y : Int) - (s.maxError : Int)) else s.corrLo }
    else
      { s with pts := s.pts ++ [(x, y)],
               corrUp := (x, (y : Int) + (s.maxError : Int)),
               corrLo := (x, (y : Int) - (s.maxError : Int)) }

/-- Modelled from the spec (§4.D Query step 3): linear interpolation
between knots `a` and `b` at key `k`, in floor arithmetic. -/
def interpLoc (a b : Nat × Nat) (k : Nat) : Nat :=
  if b.1 - a.1 = 0 then a.2
  else a.2 + (k - a.1) * (b.2 - a.2) / (b.1 - a.1)

/-- Modelled from the spec (§4.D Query step 2): locate the knot segment
whose key interval contains `k` (the spec binary-searches the sorted knot
keys; this scan locates the same segment). -/
def findSeg : List (Nat × Nat) → Nat → Nat
  | [], _ => 0
  | [a], _ => a.2
  | a :: b :: rest, k =>
    if k < b.1 then interpLoc a b k else findSeg (b :: rest) k

/-- Modelled from the spec (§4.D Query): `find(key) → (loc, lo, hi)` with
`lo = max(firstLogicalPageId, loc − maxError)` and
`hi = min(nextLogicalId − 1, loc + maxError)`. -/
def splineFind (s : Spline) (k firstLogicalPageId nextLogicalId : Nat) :
    Nat × Nat × Nat :=
  let loc := findSeg s.pts k
  (loc, max firstLogicalPageId (loc - s.maxError),
    min (nextLogicalId - 1) (loc + s.maxError))

/-- Interpolation numerator of the segment from `a` to `b` at key `x`:
the line's value multiplied by the key distance `b.1 − a.1`. -/
def interpNum (a b : Nat × Nat) (x : Nat) : Int :=
  (a.2 : Int) * ((b.1 : Int) - (a.1 : Int)) +
    ((x : Int) - (a.1 : Int)) * ((b.2 : Int) - (a.2 : Int))

/-- The segment from `a` to `b` passes within `E` vertically of the
input point `(x, y)` (multiplied through by the key distance). -/
def SegApprox (E : Nat) (a b : Nat × Nat) (x y : Nat) : Prop :=
  ((y : Int) - (E : Int)) * ((b.1 : Int) - (a.1 : Int)) ≤ interpNum a b x ∧
    interpNum a b x ≤ ((y : Int) + (E : Int)) * ((b.1 : Int) - (a.1 : Int))

/-- Input point number `j` of the key sequence `xs`: the pair
`(xs[j], j)` handed to `splineAdd` when page `j` was flushed. -/
def inputPt (xs : List Nat) (j : Nat) : Nat × Nat := (xs.getD j 0, j)

/-- `q` is one of the spline's input points. -/
def IsKnot (xs : List Nat) (q : Nat × Nat) : Prop :=
  q.2 < xs.length ∧ q.1 = xs.getD q.2 0

/-- Error guarantee of a spline segment (spec §3 "Spline knot"): every
input point lying between the two knots is predicted within `E`. -/
def SegOk (E : Nat) (xs : List Nat) (a b : Nat × Nat) : Prop :=
  ∀ j, a.2 ≤ j → j ≤ b.2 → j < xs.length →
    SegApprox E a b (xs.getD j 0) j

/-- Invariant of the greedy spline after processing the inputs
`(xs[0], 0), …, (xs[n−1], n−1)`, for `n ≥ 2`: the knot list ends with
the anchor and the tentative final input, every knot is an input point,
knot page numbers strictly increase, every adjacent pair of knots
satisfies the segment error guarantee, and the pending cone register
bounds the slope constraints of all inputs absorbed since the anchor. -/
def SplCore (E : Nat) (xs : List Nat) (s : Spline) : Prop :=
  s.maxError = E ∧
  (∃ front A, s.pts = front ++ [A, inputPt xs (xs.length - 1)]) ∧
  (∀ q ∈ s.pts, IsKnot xs q) ∧
  List.Chain' (fun a b => a.2 < b.2) s.pts ∧
  s.pts.head? = some (inputPt xs 0) ∧
  List.Chain' (SegOk E xs) s.pts ∧
  (anchor s).1 < s.corrUp.1 ∧ (anchor s).1 < s.corrLo.1 ∧
  (∀ j, (anchor s).2 ≤ j → j < xs.length →
    slopeLe (anchor s) s.corrUp (xs.getD j 0, (j : Int) + (E : Int)) ∧
    slopeLe (anchor s) (xs.getD j 0, (j : Int) - (E : Int)) s.corrLo)

/-- Spline invariant for any number of processed inputs. -/
def SplState (E : Nat) (xs : List Nat) (s : Spline) : Prop :=
  if xs.length = 0 then s = splineInit E
  else if xs.length = 1 then s.pts = [inputPt xs 0] ∧ s.maxError = E
  else SplCore E xs s

/-- The engine state: the fields of `sbitsState` the modelled operations
read or write.  Data pages are a list in logical order (physical page =
logical page while the data stream has not wrapped); the store is
modelled without an index file (`indexFile == NULL`).  A variable-data
page is represented by its header key (its first `keySize` bytes); blob
bytes themselves are outside the model. -/
structure EState where
  maxRecordsPerPage : Nat
  endDataPage : Nat
  eraseSizeInPages : Nat
  useVdata : Bool
  pageSize : Nat
  keySize : Nat
  numVarPages : Nat
  pages : List Page
  wbuf : List Rec
  spl : Spline
  recordHasVarData : Bool
  currentVarLoc : Nat
  minVarRecordId : Nat
  nextVarPageId : Nat
  numAvailVarPages : Int
  varPagesWritten : Nat
  varBufHeaderKey : Nat
  varHeaders : List Nat
deriving Repr, DecidableEq

/-- Initial engine state, from `sbitsInit` (sbits.c:167-266),
`sbitsInitData` (268-276) and `sbitsInitVarData` (505-534). -/
def initE (maxR numPages eraseSize : Nat) (useVdata : Bool)
    (pageSize keySize numVarPages maxError : Nat) : EState :=
  { maxRecordsPerPage := maxR, endDataPage := numPages,
    eraseSizeInPages := eraseSize, useVdata := useVdata,
    pageSize := pageSize, keySize := keySize, numVarPages := numVarPages,
    pages := [], wbuf := [], spl := splineInit maxError,
    recordHasVarData := false, currentVarLoc := keySize,
    minVarRecordId := 0, nextVarPageId := 0,
    numAvailVarPages := (numVarPages : Int), varPagesWritten := 0,
    varBufHeaderKey := 0, varHeaders := List.replicate numVarPages 0 }

/-- The record `sbitsPut` lays down (sbits.c:731-744): key, data, and —
when variable data is configured — the 4-byte offset field, either the
current var location modulo the var-region size or the sentinel. -/
def mkRec (s : EState) (k d : Nat) : Rec :=
  { key := k, data := d,
    varOff :=
      if s.useVdata then
        some (if s.recordHasVarData then
                s.currentVarLoc % (s.numVarPages * s.pageSize)
              else SBITS_NO_VAR_DATA)
      else none }

/-- `writePage` + `indexPage` as invoked on the data write buffer by
`sbitsPut` (sbits.c:697-699) and `sbitsFlush` (sbits.c:1292-1294): the
buffer becomes the next logical page and its minimum key is handed to
the spline with that page number; the write buffer is then
re-initialized. -/
def flushDataPage (s : EState) : EState :=
  { s with pages := s.pages ++ [s.wbuf],
           spl := splineAdd s.spl (pageMinKey s.wbuf) s.pages.length,
           wbuf := [] }

/-- `sbitsPut` (sbits.c:690-789): write the buffered page first if it is
full, then append the record.  The C function returns 0 on every path. -/
def sbitsPut (s : EState) (k d : Nat) : Int × EState :=
  let s1 := if s.maxRecordsPerPage ≤ s.wbuf.length then flushDataPage s else s
  (0, { s1 with wbuf := s1.wbuf ++ [mkRec s1 k d] })

/-- `writeVariablePage` (sbits.c:1710-1742): wrap the write position,
reclaim an erase block when no pages remain (reading the header key of
the last page about to be erased into `minVarRecordId`), then write the
buffered var page. -/
def writeVariablePage (s : EState) : EState :=
  let nv := s.nextVarPageId % s.numVarPages
  let s1 := { s with nextVarPageId := nv }
  let reclaimedKey := s1.varHeaders.getD
    ((nv + s1.eraseSizeInPages - 1) % s1.numVarPages) 0
  let s2 :=
    if s1.numAvailVarPages ≤ 0 then
      { s1 with
          numAvailVarPages := s1.numAvailVarPages + (s1.eraseSizeInPages : Int)
          minVarRecordId := reclaimedKey + 1 }
    else s1
  { s2 with varHeaders := s2.varHeaders.set nv s2.varBufHeaderKey,
            nextVarPageId := nv + 1,
            numAvailVarPages := s2.numAvailVarPages - 1,
            varPagesWritten := s2.varPagesWritten + 1 }

/-- `sbitsFlush` (sbits.c:1290-1319) for a store without an index file:
write the data buffer (feeding the spline) and, when variable data is
configured, the var write buffer. -/
def sbitsFlush (s : EState) : Int × EState :=
  let s1 := flushDataPage s
  (0, if s1.useVdata then writeVariablePage s1 else s1)

/-- The space check at the top of `sbitsPutVar` (sbits.c:836-841): if
fewer than 4 bytes remain in the current var page, write it out and move
the write position past the next page's `keySize`-byte header. -/
def varPrep (s : EState) : EState × Bool :=
  if s.pageSize - 4 < s.currentVarLoc % s.pageSize then
    let s1 := writeVariablePage s
    let s2 : EState := { s1 with varBufHeaderKey := 0 }
    ({ s2 with currentVarLoc :=
        s2.currentVarLoc + (s2.pageSize - s2.currentVarLoc % s2.pageSize) +
          s2.keySize }, true)
  else (s, false)

/-- The blob-streaming loop of `sbitsPutVar` (sbits.c:867-885), with the
byte count abstracted to lengths: advance by `min(space left in page,
remaining length)`; on filling a page, write it and skip the next
header.  The fuel equals the remaining length at the first call; each
iteration consumes at least one byte whenever `pageSize > 0`. -/
def varStream : Nat → EState → Nat → Nat → EState
  | 0, s, _, _ => s
  | fuel + 1, s, key, len =>
    if len = 0 then s
    else
      let amt := min (s.pageSize - s.currentVarLoc % s.pageSize) len
      let s1 : EState := { s with currentVarLoc := s.currentVarLoc + amt }
      let s2 : EState :=
        if s1.currentVarLoc % s1.pageSize = 0 then
          let t := writeVariablePage s1
          { t with varBufHeaderKey := key
                   currentVarLoc := t.currentVarLoc + t.keySize }
        else s1
      varStream fuel s2 key (len - amt)

/-- Observability of `sbitsPutVar`: whether the space check wrote the
current var page, and the var-stream position at which the 4-byte length
header was stored. -/
structure VarTrace where
  prepWrote : Bool
  lenPos : Nat
deriving Repr, DecidableEq

/-- `sbitsPutVar` (sbits.c:830-896): fails when variable data is not
configured; otherwise ensures the 4-byte length header fits in the
current var page, performs the fixed-record insert with the
has-var-data flag, stamps the var page header with the key, writes the
length, and streams the blob (represented by its length). -/
def sbitsPutVar (s : EState) (k d : Nat) (blob : Option Nat) :
    Int × EState × VarTrace :=
  if s.useVdata then
    match blob with
    | some len =>
      let p := varPrep s
      let s2 : EState := { p.1 with recordHasVarData := true }
      let s3 := (sbitsPut s2 k d).2
      let s4 : EState := { s3 with varBufHeaderKey := k }
      let lenPos := s4.currentVarLoc
      let s5 : EState := { s4 with currentVarLoc := s4.currentVarLoc + 4 }
      let s6 : EState :=
        if s5.currentVarLoc % s5.pageSize = 0 then
          let t := writeVariablePage s5
          { t with varBufHeaderKey := k
                   currentVarLoc := t.currentVarLoc + t.keySize }
        else s5
      (0, varStream len s6 k len, ⟨p.2, lenPos⟩)
    | none =>
      let s2 : EState := { s with recordHasVarData := false }
      let r := sbitsPut s2 k d
      (r.1, r.2, ⟨false, 0⟩)
  else (-1, s, ⟨false, 0⟩)

/-- The binary-search loop of `sbitsSearchNode` (sbits.c:946-958).  The
first probe `middle` is whatever the caller estimated; each further probe
is the midpoint of the remaining window. -/
def searchLoop : Nat → Page → Nat → Int → Int → Int → Option Nat
  | 0, _, _, _, _, _ => none
  | fuel + 1, pg, k, first, last, middle =>
    if first ≤ last then
      match pg.get? middle.toNat with
      | none => none
      | some r =>
        if r.key < k then
          searchLoop fuel pg k (middle + 1) last ((middle + 1 + last) / 2)
        else if r.key = k then some middle.toNat
        else searchLoop fuel pg k first (middle - 1) ((first + middle - 1) / 2)
    else none

/-- `sbitsSearchNode` (sbits.c:924-962).  `est` abstracts the float
key-location estimate of `sbitsEstimateKeyLocation`; out-of-range
estimates fall back to the window midpoint, and the loop is a correct
binary search for every in-range first probe (the theorems below hold
for all estimates).  The `state->maxError == -1` escape never fires
after `sbitsInit` (sbits.c:207 sets it to `maxRecordsPerPage`). -/
def sbitsSearchNode (est : Int) (pg : Page) (k : Nat) : Option Nat :=
  let count : Int := (pg.length : Int)
  let middle0 := if count ≤ est ∨ est ≤ 0 then (count - 1) / 2 else est
  let middle1 := if count - 1 < middle0 then count - 1 else middle0
  searchLoop (pg.length + 2) pg k 0 (count - 1) middle1

/-- `linearSearch` (sbits.c:977-1005): walk logical pages from the
spline's predicted location, clamped to the bracket `[low, high]`;
reading logical page `l` consults physical page `l % endDataPage`
(sbits.c:982). -/
def linearLoop : Nat → List Page → Nat → Nat → Int → Int → Int → Option Page
  | 0, _, _, _, _, _, _ => none
  | fuel + 1, pages, N, k, pageId, low, high =>
    if high < pageId ∨ pageId < low ∨ high < low then none
    else
      match pages.get? ((pageId % (N : Int)).toNat) with
      | none => none
      | some pg =>
        if k < pageMinKey pg then
          linearLoop fuel pages N k (pageId - 1) low (pageId - 1)
        else if pageMaxKey pg < k then
          linearLoop fuel pages N k (pageId + 1) (pageId + 1) high
        else some pg

/-- `sbitsGet` (sbits.c:1016-1149), search method 2: empty-store check
(`nextPageId == 0 && wrappedMemory == 0`, sbits.c:1017), spline bracket,
linear page search, then the in-page binary search; on success the
matching record is produced (the C code copies its data bytes out). -/
def sbitsGet (s : EState) (est : Page → Nat → Int) (k : Nat) : Option Rec :=
  if s.pages.length = 0 then none
  else
    let f := splineFind s.spl k 0 s.pages.length
    match linearLoop (s.pages.length + 2) s.pages s.endDataPage k
        (f.1 : Int) (f.2.1 : Int) (f.2.2 : Int) with
    | none => none
    | some pg =>
      match sbitsSearchNode (est pg k) pg k with
      | none => none
      | some i => pg.get? i

/-- The data bytes `sbitsGet` copies into the caller's buffer. -/
def getData (s : EState) (est : Page → Nat → Int) (k : Nat) : Option Nat :=
  (sbitsGet s est k).map Rec.data

/-- Outcome of `sbitsGetVar`: `-1` error, `0` with the blob pointer
(`none` meaning `NULL`), or `1` when the blob was reclaimed (pointer set
to `NULL`). -/
inductive GetVarResult where
  | err : GetVarResult
  | found : Option Nat → GetVarResult
  | stale : GetVarResult
deriving Repr, DecidableEq

/-- Return code of `sbitsGetVar`. -/
def getVarRet : GetVarResult → Int
  | .err => -1
  | .found _ => 0
  | .stale => 1

/-- The blob pointer `sbitsGetVar` leaves in `*varData` (the success
case carries the var-stream offset of the blob; its bytes are outside
the model). -/
def getVarBlob : GetVarResult → Option Nat
  | .err => none
  | .found b => b
  | .stale => none

/-- `sbitsGetVar` (sbits.c:1162-1238): fetch the fixed record; a
sentinel offset means no blob (return 0, `NULL`); a key below
`minVarRecordId` means the blob was overwritten by var-stream wrap
(return 1, `NULL`); otherwise the blob at the stored offset is read.  A
record without an offset field (store configured without variable data)
reads unspecified bytes in C and is mapped to an error here. -/
def sbitsGetVar (s : EState) (est : Page → Nat → Int) (k : Nat) :
    GetVarResult :=
  match sbitsGet s est k with
  | none => .err
  | some r =>
    match r.varOff with
    | none => .err
    | some off =>
      if off = SBITS_NO_VAR_DATA then .found none
      else if k < s.minVarRecordId then .stale
      else .found (some off)

/-- Run a list of `sbitsPut`s. -/
def runPuts : EState → List (Nat × Nat) → EState
  | s, [] => s
  | s, (k, d) :: rest => runPuts (sbitsPut s k d).2 rest

/-- Engine operations driving the write-slot state machine. -/
inductive Op where
  | put : Nat → Nat → Op
  | flushOp : Op
deriving Repr, DecidableEq

/-- Run a list of operations. -/
def runOps : EState → List Op → EState
  | s, [] => s
  | s, .put k d :: rest => runOps (sbitsPut s k d).2 rest
  | s, .flushOp :: rest => runOps (sbitsFlush s).2 rest

/-- The key of the record inserted last (0 when none was inserted):
"the previously inserted key" of the put contract. -/
def lastInsertedKey (s : EState) : Nat :=
  pageMaxKey (s.pages.flatten ++ s.wbuf)

/-- Operation sequences whose puts respect the non-decreasing-key
contract (spec.md §4.E). -/
def ContractOps : EState → List Op → Prop
  | _, [] => True
  | s, .put k d :: rest =>
      lastInsertedKey s ≤ k ∧ ContractOps (sbitsPut s k d).2 rest
  | s, .flushOp :: rest => ContractOps (sbitsFlush s).2 rest

/-- All records currently stored, in insertion order: flushed data pages
then the write buffer. -/
def allRecs (s : EState) : List Rec := s.pages.flatten ++ s.wbuf

/-- Invariant of the engine under strictly increasing keys: flushed pages
are exactly full, the write buffer never overfull, all stored keys
strictly increase in insertion order, and the spline tracks the page
minimum keys. -/
def EngInv (s : EState) : Prop :=
  0 < s.maxRecordsPerPage ∧
  (∀ pg ∈ s.pages, pg.length = s.maxRecordsPerPage) ∧
  s.wbuf.length ≤ s.maxRecordsPerPage ∧
  List.Pairwise (fun r t => r.key < t.key) (allRecs s) ∧
  SplState s.spl.maxError (s.pages.map pageMinKey) s.spl

/-- Operation sequences respecting the put contract whose explicit
flushes never write an empty buffer (a put-triggered flush always writes
a full page, so only explicit flushes can emit an empty one). -/
def SafeOps : EState → List Op → Prop
  | _, [] => True
  | s, .put k d :: rest =>
      lastInsertedKey s ≤ k ∧ SafeOps (sbitsPut s k d).2 rest
  | s, .flushOp :: rest => s.wbuf ≠ [] ∧ SafeOps (sbitsFlush s).2 rest

instance decContractOps : (s : EState) → (ops : List Op) →
    Decidable (ContractOps s ops)
  | _, [] => isTrue trivial
  | s, .put k d :: rest =>
    have h2 : Decidable (ContractOps (sbitsPut s k d).2 rest) :=
      decContractOps _ rest
    inferInstanceAs (Decidable (lastInsertedKey s ≤ k ∧
      ContractOps (sbitsPut s k d).2 rest))
  | s, .flushOp :: rest => decContractOps (sbitsFlush s).2 rest

instance decSafeOps : (s : EState) → (ops : List Op) →
    Decidable (SafeOps s ops)
  | _, [] => isTrue trivial
  | s, .put k d :: rest =>
    have h2 : Decidable (SafeOps (sbitsPut s k d).2 rest) :=
      decSafeOps _ rest
    inferInstanceAs (Decidable (lastInsertedKey s ≤ k ∧
      SafeOps (sbitsPut s k d).2 rest))
  | s, .flushOp :: rest =>
    have h2 : Decidable (SafeOps (sbitsFlush s).2 rest) :=
      decSafeOps _ rest
    inferInstanceAs (Decidable (s.wbuf ≠ [] ∧
      SafeOps (sbitsFlush s).2 rest))

/-- Invariant for the amended C2: stored records have non-decreasing
keys in insertion order and every flushed page is nonempty. -/
def C2Inv (s : EState) : Prop :=
  0 < s.maxRecordsPerPage ∧
  List.Chain' (fun r t => r.key ≤ t.key) (allRecs s) ∧
  (∀ pg ∈ s.pages, pg ≠ [])

theorem logInv_init (numPages eraseSize maxRecs : Nat) :
    LogInv (initLog numPages eraseSize maxRecs) := by
  simp [LogInv, initLog]

theorem logInv_writePage (s : LogState) (hc : GoodLogCfg s) (h : LogInv s) :
    LogInv (writePage s) := by
  obtain ⟨he2, hdvd, hN, hstart⟩ := hc
  obtain ⟨hnw, hrest⟩ := h
  have heN : s.eraseSizeInPages ≤ s.endDataPage := Nat.le_of_dvd hN hdvd
  by_cases hw : s.wrappedMemory = 0
  · rw [if_pos hw] at hrest
    obtain ⟨hfd, hfdi⟩ := hrest
    by_cases hwrap : s.endDataPage ≤ s.nextPageWriteId
    · -- wrap fires, erase-ahead cannot
      have hcalc : writePage s =
          { s with nextPageId := s.nextPageId + 1,
                   firstDataPageId := s.firstDataPageId + s.eraseSizeInPages,
                   erasedEndPage := s.startDataPage + s.eraseSizeInPages - 1,
                   firstDataPage := (s.startDataPage + s.eraseSizeInPages - 1) + 1,
                   wrappedMemory := 1,
                   minKey := s.minKey +
                     s.eraseSizeInPages * s.avgKeyDiff * s.maxRecordsPerPage,
                   nextPageWriteId := s.startDataPage + 1 } := by
        have hnofire : ¬ (s.erasedEndPage ≤ s.nextPageWriteId ∧
            s.nextPageWriteId + s.eraseSizeInPages < s.endDataPage) := by omega
        simp [writePage, stampId, newErasedEnd, advanceWrite, eraseAhead, wrapData, hnofire, hwrap]
      rw [hcalc]; unfold LogInv; dsimp only
      have hfde : (s.startDataPage + s.eraseSizeInPages - 1) + 1 =
          s.eraseSizeInPages := by omega
      refine ⟨by omega, ?_⟩
      rw [if_neg (by simp)]
      refine ⟨rfl, ?_, ?_, by omega, by omega, Or.inl (by omega)⟩
      · rw [hfde]
      · rw [hfde, hfdi, Nat.zero_add]
    · -- no wrap; erase-ahead may fire but leaves first pointers alone
      by_cases hfire : s.erasedEndPage ≤ s.nextPageWriteId ∧
          s.nextPageWriteId + s.eraseSizeInPages < s.endDataPage
      · have hcalc : writePage s =
            { s with nextPageId := s.nextPageId + 1,
                     erasedEndPage := newErasedEnd s,
                     nextPageWriteId := s.nextPageWriteId + 1 } := by
          simp [writePage, stampId, newErasedEnd, advanceWrite, eraseAhead, wrapData, hfire, hw, hwrap]
        rw [hcalc]; unfold LogInv; dsimp only
        exact ⟨by omega, by rw [if_pos hw]; exact ⟨hfd, hfdi⟩⟩
      · have hcalc : writePage s =
            { s with nextPageId := s.nextPageId + 1,
                     nextPageWriteId := s.nextPageWriteId + 1 } := by
          simp [writePage, stampId, newErasedEnd, advanceWrite, eraseAhead, wrapData, hfire, hwrap]
        rw [hcalc]; unfold LogInv; dsimp only
        exact ⟨by omega, by rw [if_pos hw]; exact ⟨hfd, hfdi⟩⟩
  · rw [if_neg hw] at hrest
    obtain ⟨hfd, hdvd2, hcong, hee, hfdN, hdisj⟩ := hrest
    by_cases hfire : s.erasedEndPage ≤ s.nextPageWriteId ∧
        s.nextPageWriteId + s.eraseSizeInPages < s.endDataPage
    · -- erase-ahead fires while wrapped: advance the reclamation frontier
      have hnwlt : s.nextPageWriteId < s.endDataPage := by omega
      have heq : s.nextPageWriteId = s.erasedEndPage := by
        rcases hdisj with h1 | h1
        · omega
        · omega
      have hnz : s.erasedEndPage ≠ 0 := by omega
      have hne : newErasedEnd s = s.erasedEndPage + s.eraseSizeInPages := by
        rw [newErasedEnd, if_pos hnz]
      have hcalc : writePage s =
          { s with nextPageId := s.nextPageId + 1,
                   erasedEndPage := s.erasedEndPage + s.eraseSizeInPages,
                   firstDataPage := s.erasedEndPage + s.eraseSizeInPages + 1,
                   firstDataPageId := s.firstDataPageId + s.eraseSizeInPages,
                   minKey := s.minKey +
                     s.eraseSizeInPages * s.avgKeyDiff * s.maxRecordsPerPage,
                   nextPageWriteId := s.nextPageWriteId + 1 } := by
        have hnowrap : ¬ s.endDataPage ≤ s.nextPageWriteId := by omega
        simp [writePage, stampId, newErasedEnd, hnz, advanceWrite, eraseAhead, wrapData, hfire, hw,
          hnowrap]
      rw [hcalc]; unfold LogInv; dsimp only
      refine ⟨by omega, ?_⟩
      rw [if_neg hw]
      have hstep : s.erasedEndPage + s.eraseSizeInPages + 1 =
          s.firstDataPage + s.eraseSizeInPages := by omega
      refine ⟨rfl, ?_, ?_, by omega, by omega, Or.inl (by omega)⟩
      · rw [hstep]; exact dvd_add hdvd2 dvd_rfl
      · rw [hstep]
        exact Nat.ModEq.add_right s.eraseSizeInPages hcong
    · by_cases hwrap : s.endDataPage ≤ s.nextPageWriteId
      · -- second (or later) wrap
        have hnwN : s.nextPageWriteId = s.endDataPage := by omega
        have hfdisN : s.firstDataPage = s.endDataPage := by
          rcases hdisj with h1 | h1
          · omega
          · exact h1
        have hcalc : writePage s =
            { s with nextPageId := s.nextPageId + 1,
                     firstDataPageId := s.firstDataPageId + s.eraseSizeInPages,
                     erasedEndPage := s.startDataPage + s.eraseSizeInPages - 1,
                     firstDataPage := (s.startDataPage + s.eraseSizeInPages - 1) + 1,
                     wrappedMemory := 1,
                     minKey := s.minKey +
                       s.eraseSizeInPages * s.avgKeyDiff * s.maxRecordsPerPage,
                     nextPageWriteId := s.startDataPage + 1 } := by
          simp [writePage, stampId, newErasedEnd, advanceWrite, eraseAhead, wrapData, hfire, hwrap]
        rw [hcalc]; unfold LogInv; dsimp only
        have hfde : (s.startDataPage + s.eraseSizeInPages - 1) + 1 =
            s.eraseSizeInPages := by omega
        have hzero : s.firstDataPageId % s.endDataPage = 0 := by
          rw [← hcong, hfdisN, Nat.mod_self]
        refine ⟨by omega, ?_⟩
        rw [if_neg (by simp)]
        refine ⟨rfl, ?_, ?_, by omega, by omega, Or.inl (by omega)⟩
        · rw [hfde]
        · rw [hfde]
          have h1 : (s.firstDataPageId + s.eraseSizeInPages) % s.endDataPage =
              (0 + s.eraseSizeInPages) % s.endDataPage :=
            Nat.ModEq.add_right s.eraseSizeInPages hzero
          rw [h1, Nat.zero_add]
      · -- plain write in the middle of the live arc
        have hcalc : writePage s =
            { s with nextPageId := s.nextPageId + 1,
                     nextPageWriteId := s.nextPageWriteId + 1 } := by
          simp [writePage, stampId, newErasedEnd, advanceWrite, eraseAhead, wrapData, hfire, hwrap]
        rw [hcalc]; unfold LogInv; dsimp only
        refine ⟨by omega, ?_⟩
        rw [if_neg hw]
        refine ⟨hfd, hdvd2, hcong, hee, hfdN, ?_⟩
        rcases hdisj with h1 | h1
        · rcases Nat.lt_or_ge s.nextPageWriteId s.erasedEndPage with h2 | h2
          · exact Or.inl (by omega)
          · -- at the frontier but the erase-ahead refused: the live arc
            -- already spans the whole region
            right
            have h3 : s.endDataPage ≤ s.nextPageWriteId + s.eraseSizeInPages := by
              by_contra h4
              exact hfire ⟨by omega, by omega⟩
            have h5 : s.endDataPage - s.firstDataPage < s.eraseSizeInPages := by omega
            have h6 : s.eraseSizeInPages ∣ s.endDataPage - s.firstDataPage :=
              Nat.dvd_sub' hdvd hdvd2
            have h7 : s.endDataPage - s.firstDataPage = 0 :=
              Nat.eq_zero_of_dvd_of_lt h6 h5
            omega
        · exact Or.inr h1

theorem goodLogCfg_writePage (s : LogState) :
    GoodLogCfg (writePage s) ↔ GoodLogCfg s := by
  unfold GoodLogCfg writePage stampId advanceWrite eraseAhead wrapData
  split_ifs <;> simp

theorem logInv_of_reachable (s : LogState) (hr : ReachableLog s)
    (hc : GoodLogCfg s) : LogInv s := by
  induction hr with
  | init numPages eraseSize maxRecs => exact logInv_init numPages eraseSize maxRecs
  | step t a ht ih =>
    have hct : GoodLogCfg { t with avgKeyDiff := a } :=
      (goodLogCfg_writePage _).mp hc
    have hct' : GoodLogCfg t := hct
    exact logInv_writePage _ hct (ih hct')

theorem reachableLog_writeRun (n : Nat) (s : LogState) (h : ReachableLog s) :
    ReachableLog (writeRun n s) := by
  induction n with
  | zero => exact h
  | succ n ih => exact ReachableLog.step (writeRun n s) (writeRun n s).avgKeyDiff ih

theorem mapping_agrees_of_inv (s : LogState) (hstart : s.startDataPage = 0)
    (hcong : s.firstDataPage % s.endDataPage = s.firstDataPageId % s.endDataPage)
    (l : Nat) : (readPhysicalPage s l : Int) = specMappedPage s l := by
  unfold readPhysicalPage specMappedPage
  rw [hstart]
  have hcongZ : (s.firstDataPage : Int) % (s.endDataPage : Int) =
      (s.firstDataPageId : Int) % (s.endDataPage : Int) := by
    exact_mod_cast hcong
  have hsub : (((s.firstDataPage : Int) - s.firstDataPageId) %
      (s.endDataPage : Int)) = 0 := by
    rw [Int.sub_emod, hcongZ, sub_self, Int.zero_emod]
  have hmain : ((l : Int) + s.firstDataPage - s.firstDataPageId) %
      (s.endDataPage : Int) = (l : Int) % s.endDataPage := by
    rw [add_sub_assoc, Int.add_emod, hsub, add_zero,
      Int.emod_emod_of_dvd _ dvd_rfl]
  push_cast
  rw [sub_zero, hmain]

/-- Claim C3 (amended): for every state of the data log reachable by puts
and flushes, provided the erase block size is at least 2 and divides the
number of data pages, the physical page read by `linearSearch` for
logical page `l` — namely `l mod endDataPage` — coincides with the
specification's formula `(l + firstPhysicalPage − firstLogicalPageId) mod
(endPage − startPage)`.  (Without the divisibility proviso the two
disagree; see the counterexample.) -/
theorem claim_C3_amended (s : LogState) (hr : ReachableLog s)
    (hc : GoodLogCfg s) (l : Nat) :
    (readPhysicalPage s l : Int) = specMappedPage s l := by
  have hinv := logInv_of_reachable s hr hc
  obtain ⟨he2, hdvd, hN, hstart⟩ := hc
  obtain ⟨hnw, hrest⟩ := hinv
  have hcong : s.firstDataPage % s.endDataPage =
      s.firstDataPageId % s.endDataPage := by
    by_cases hw : s.wrappedMemory = 0
    · rw [if_pos hw] at hrest; rw [hrest.1, hrest.2]
    · rw [if_neg hw] at hrest; exact hrest.2.2.1
  exact mapping_agrees_of_inv s hstart hcong l

/-- Claim C3, counterexample to the claim as stated: with 18 data pages
and an erase block of 4 pages (a configuration `sbitsInit` accepts), the
state after 37 page writes is reachable, has logical page 36 live
(`firstDataPageId = 20 ≤ 36 < nextPageId = 37`), and the physical page
the code reads for logical id 36 (page 0) differs from the
specification's mapping formula (page 2). -/
theorem claim_C3_counterexample :
    ReachableLog (writeRun 37 (initLog 18 4 10)) ∧
    (writeRun 37 (initLog 18 4 10)).firstDataPageId = 20 ∧
    (writeRun 37 (initLog 18 4 10)).nextPageId = 37 ∧
    readPhysicalPage (writeRun 37 (initLog 18 4 10)) 36 = 0 ∧
    specMappedPage (writeRun 37 (initLog 18 4 10)) 36 = 2 ∧
    (readPhysicalPage (writeRun 37 (initLog 18 4 10)) 36 : Int) ≠
      specMappedPage (writeRun 37 (initLog 18 4 10)) 36 :=
  ⟨reachableLog_writeRun 37 _ (ReachableLog.init 18 4 10),
    by decide, by decide, by decide, by decide, by decide⟩

/-- Witness for `claim_C3_amended` at a concrete reachable state: 8 data
pages, erase block 2 (which divides 8), after 6 writes, logical page 11.
-/
theorem claim_C3_witness :
    GoodLogCfg (writeRun 6 (initLog 8 2 5)) ∧
    (readPhysicalPage (writeRun 6 (initLog 8 2 5)) 11 : Int) =
      specMappedPage (writeRun 6 (initLog 8 2 5)) 11 :=
  ⟨by decide,
    claim_C3_amended _ (reachableLog_writeRun 6 _ (ReachableLog.init 8 2 5))
      (by decide) 11⟩

/-- Claim C4: when `writePage` finds `nextPageWriteId ≥ endDataPage` the
wrap branch sets `wrappedMemory` to 1, resets `nextPageWriteId` to
`startDataPage` (the page is then written there, leaving
`nextPageWriteId = startDataPage + 1`), advances `firstDataPageId` by
exactly `eraseSizeInPages`, sets `firstDataPage` to
`startDataPage + eraseSizeInPages`, and does not decrease `minKey`. -/
theorem claim_C4 (s : LogState)
    (hwrap : s.endDataPage ≤ s.nextPageWriteId)
    (he : 1 ≤ s.eraseSizeInPages) :
    (writePage s).wrappedMemory = 1 ∧
    (wrapData (eraseAhead (stampId s))).nextPageWriteId = s.startDataPage ∧
    (writePage s).nextPageWriteId = s.startDataPage + 1 ∧
    (writePage s).firstDataPageId = s.firstDataPageId + s.eraseSizeInPages ∧
    (writePage s).firstDataPage = s.startDataPage + s.eraseSizeInPages ∧
    s.minKey ≤ (writePage s).minKey := by
  have hnofire : ¬ (s.erasedEndPage ≤ s.nextPageWriteId ∧
      s.nextPageWriteId + s.eraseSizeInPages < s.endDataPage) := by omega
  have hcalc : wrapData (eraseAhead (stampId s)) =
      { s with nextPageId := s.nextPageId + 1,
               firstDataPageId := s.firstDataPageId + s.eraseSizeInPages,
               erasedEndPage := s.startDataPage + s.eraseSizeInPages - 1,
               firstDataPage := (s.startDataPage + s.eraseSizeInPages - 1) + 1,
               wrappedMemory := 1,
               nextPageWriteId := s.startDataPage,
               minKey := s.minKey +
                 s.eraseSizeInPages * s.avgKeyDiff * s.maxRecordsPerPage } := by
    simp [stampId, eraseAhead, wrapData, hnofire, hwrap]
  unfold writePage
  rw [hcalc]
  unfold advanceWrite
  dsimp only
  exact ⟨rfl, rfl, rfl, rfl, by omega, Nat.le_add_right _ _⟩

/-! ### Spline lemmas -/

theorem slopeLe_rfl (A : Nat × Nat) (P : Nat × Int) : slopeLe A P P :=
  le_refl _

theorem slopeLe_of_not (A : Nat × Nat) (P Q : Nat × Int)
    (h : ¬ slopeLe A P Q) : slopeLe A Q P := by
  unfold slopeLe at h ⊢
  omega

theorem slopeLe_trans (A : Nat × Nat) (P Q R : Nat × Int)
    (hP : (A.1 : Int) ≤ P.1) (hQ : (A.1 : Int) < Q.1) (hR : (A.1 : Int) ≤ R.1)
    (h1 : slopeLe A P Q) (h2 : slopeLe A Q R) : slopeLe A P R := by
  unfold slopeLe at h1 h2 ⊢
  have h3 := mul_le_mul_of_nonneg_right h1 (by omega : (0 : Int) ≤ R.1 - A.1)
  have h4 := mul_le_mul_of_nonneg_right h2 (by omega : (0 : Int) ≤ P.1 - A.1)
  have h5 : ((Q.1 : Int) - A.1) * ((P.2 - A.2) * (R.1 - A.1)) ≤
      ((Q.1 : Int) - A.1) * ((R.2 - A.2) * (P.1 - A.1)) := by nlinarith
  exact le_of_mul_le_mul_left h5 (by omega)

theorem segApprox_self_left (E : Nat) (a b : Nat × Nat)
    (hx : (a.1 : Int) ≤ b.1) : SegApprox E a b a.1 a.2 := by
  unfold SegApprox interpNum
  constructor <;> nlinarith [Int.natCast_nonneg E]

theorem segApprox_self_right (E : Nat) (a b : Nat × Nat)
    (hx : (a.1 : Int) ≤ b.1) : SegApprox E a b b.1 b.2 := by
  unfold SegApprox interpNum
  constructor <;> nlinarith [Int.natCast_nonneg E]

theorem segApprox_of_slopes (E : Nat) (A T : Nat × Nat) (x y : Nat)
    (hup : slopeLe A (toPt T) (x, (y : Int) + (E : Int)))
    (hlo : slopeLe A (x, (y : Int) - (E : Int)) (toPt T)) :
    SegApprox E A T x y := by
  unfold slopeLe toPt at hup hlo
  unfold SegApprox interpNum
  dsimp only at hup hlo ⊢
  constructor <;> nlinarith

theorem slope_anchor_up (A : Nat × Nat) (P : Nat × Int) (E : Nat)
    (hP : (A.1 : Int) ≤ P.1) :
    slopeLe A P (A.1, (A.2 : Int) + (E : Int)) := by
  unfold slopeLe
  dsimp only
  nlinarith [Int.natCast_nonneg E]

theorem slope_anchor_lo (A : Nat × Nat) (P : Nat × Int) (E : Nat)
    (hP : (A.1 : Int) ≤ P.1) :
    slopeLe A (A.1, (A.2 : Int) - (E : Int)) P := by
  unfold slopeLe
  dsimp only
  nlinarith [Int.natCast_nonneg E]

theorem anchor_decomp (s : Spline) (front : List (Nat × Nat))
    (A T : Nat × Nat) (h : s.pts = front ++ [A, T]) : anchor s = A := by
  unfold anchor
  rw [h]
  rw [List.getD_eq_getElem?_getD, List.getElem?_append]
  simp [List.length_append]

theorem splineAdd_two (s : Spline) (a b : Nat × Nat)
    (t : List (Nat × Nat)) (h : s.pts = a :: b :: t) (x y : Nat) :
    splineAdd s x y =
      if slopeLe (anchor s) (toPt (x, y)) s.corrUp ∧
          slopeLe (anchor s) s.corrLo (toPt (x, y)) then
        { s with pts := s.pts.dropLast ++ [(x, y)],
                 corrUp :=
                   if slopeLe (anchor s) (x, (y : Int) + (s.maxError : Int))
                       s.corrUp
                   then (x, (y : Int) + (s.maxError : Int)) else s.corrUp,
                 corrLo :=
                   if slopeLe (anchor s) s.corrLo
                       (x, (y : Int) - (s.maxError : Int))
                   then (x, (y : Int) - (s.maxError : Int)) else s.corrLo }
      else
        { s with pts := s.pts ++ [(x, y)],
                 corrUp := (x, (y : Int) + (s.maxError : Int)),
                 corrLo := (x, (y : Int) - (s.maxError : Int)) } := by
  obtain ⟨pts, cu, cl, E⟩ := s
  simp only at h
  subst h
  rfl

/-- Witness for `claim_C4` at a concrete wrapping state. -/
theorem claim_C4_witness :
    (writePage { initLog 8 2 5 with nextPageWriteId := 8 }).wrappedMemory = 1 ∧
    (writePage { initLog 8 2 5 with nextPageWriteId := 8 }).firstDataPage =
      0 + 2 :=
  ⟨(claim_C4 { initLog 8 2 5 with nextPageWriteId := 8 } (by decide)
      (by decide)).1,
   (claim_C4 { initLog 8 2 5 with nextPageWriteId := 8 } (by decide)
      (by decide)).2.2.2.2.1⟩

theorem getD_append_lt (xs : List Nat) (x : Nat) (j : Nat) (hj : j < xs.length) :
    (xs ++ [x]).getD j 0 = xs.getD j 0 := by
  rw [List.getD_eq_getElem?_getD, List.getD_eq_getElem?_getD,
    List.getElem?_append, if_pos hj]

theorem getD_append_len (xs : List Nat) (x : Nat) :
    (xs ++ [x]).getD xs.length 0 = x := by
  rw [List.getD_eq_getElem?_getD, List.getElem?_append, if_neg (by omega)]
  simp

theorem pairwise_getD_lt (xs : List Nat) (h : List.Pairwise (· < ·) xs)
    (i j : Nat) (hij : i < j) (hj : j < xs.length) :
    xs.getD i 0 < xs.getD j 0 := by
  rw [List.getD_eq_getElem xs 0 (by omega), List.getD_eq_getElem xs 0 hj]
  exact List.pairwise_iff_getElem.mp h i j (by omega) hj hij

theorem pairwise_getD_le (xs : List Nat) (h : List.Pairwise (· < ·) xs)
    (i j : Nat) (hij : i ≤ j) (hj : j < xs.length) :
    xs.getD i 0 ≤ xs.getD j 0 := by
  rcases Nat.eq_or_lt_of_le hij with rfl | hlt
  · exact le_refl _
  · exact Nat.le_of_lt (pairwise_getD_lt xs h i j hlt hj)

theorem getD_mem_of_lt (xs : List Nat) (j : Nat) (hj : j < xs.length) :
    xs.getD j 0 ∈ xs := by
  rw [List.getD_eq_getElem xs 0 hj]
  exact List.getElem_mem hj

theorem chain'_concat2 {α : Type} (R : α → α → Prop) (front : List α)
    (A T : α) :
    List.Chain' R (front ++ [A, T]) ↔ List.Chain' R (front ++ [A]) ∧ R A T := by
  rw [show front ++ [A, T] = (front ++ [A]) ++ [T] by simp, List.chain'_append]
  simp [List.getLast?_concat]

theorem head_stable {α : Type} (front : List α) (A : α) (l l' : List α) :
    (front ++ A :: l).head? = (front ++ A :: l').head? := by
  cases front <;> simp

theorem chain'_segOk_mono (E : Nat) (xs : List Nat) (x : Nat)
    (l : List (Nat × Nat)) (hmem : ∀ q ∈ l, q.2 < xs.length)
    (h : List.Chain' (SegOk E xs) l) :
    List.Chain' (SegOk E (xs ++ [x])) l := by
  induction l with
  | nil => exact List.chain'_nil
  | cons a t ih =>
    cases t with
    | nil => simp
    | cons b t2 =>
      rw [List.chain'_cons] at h ⊢
      refine ⟨?_, ih (fun q hq => hmem q (List.mem_cons_of_mem a hq)) h.2⟩
      intro j h1 h2 h3
      have hb : b.2 < xs.length := hmem b (by simp)
      have hj : j < xs.length := by omega
      rw [getD_append_lt xs x j hj]
      exact h.1 j h1 h2 hj

theorem isKnot_mono (xs : List Nat) (x : Nat) (q : Nat × Nat)
    (h : IsKnot xs q) : IsKnot (xs ++ [x]) q := by
  obtain ⟨h1, h2⟩ := h
  exact ⟨by simp; omega, by rw [getD_append_lt xs x q.2 h1]; exact h2⟩

theorem splineAdd_one (s : Spline) (q : Nat × Nat) (h : s.pts = [q])
    (x y : Nat) :
    splineAdd s x y =
      { s with pts := [q, (x, y)],
               corrUp := (x, (y : Int) + (s.maxError : Int)),
               corrLo := (x, (y : Int) - (s.maxError : Int)) } := by
  obtain ⟨pts, cu, cl, E⟩ := s
  simp only at h
  subst h
  rfl

theorem getD_penult (front : List (Nat × Nat)) (A T : Nat × Nat) :
    (front ++ [A, T]).getD ((front ++ [A, T]).length - 2) (0, 0) = A := by
  rw [List.getD_eq_getElem?_getD, List.getElem?_append]
  simp [List.length_append]

theorem splineAdd_nil (s : Spline) (h : s.pts = []) (x y : Nat) :
    splineAdd s x y = { s with pts := [(x, y)] } := by
  obtain ⟨pts, cu, cl, E⟩ := s
  simp only at h
  subst h
  rfl

theorem splState_add (E : Nat) (xs : List Nat) (x : Nat) (s : Spline)
    (hsort : List.Pairwise (· < ·) (xs ++ [x]))
    (h : SplState E xs s) :
    SplState E (xs ++ [x]) (splineAdd s x xs.length) := by
  have hsortxs : List.Pairwise (· < ·) xs := (List.pairwise_append.mp hsort).1
  have hxall : ∀ j, j < xs.length → xs.getD j 0 < x := by
    intro j hj
    exact (List.pairwise_append.mp hsort).2.2 _ (getD_mem_of_lt xs j hj) x
      (by simp)
  unfold SplState at h ⊢
  rcases Nat.eq_zero_or_pos xs.length with h0 | hpos
  · -- no inputs yet
    rw [if_pos h0] at h
    have hxs : xs = [] := List.length_eq_zero.mp h0
    subst hxs
    rw [h]
    rw [splineAdd_nil _ rfl]
    simp [inputPt, splineInit]
  rcases Nat.lt_or_ge xs.length 2 with h1 | hn2
  · -- exactly one input so far
    have hlen1 : xs.length = 1 := by omega
    rw [if_neg (by omega), if_pos hlen1] at h
    obtain ⟨hpts, hE⟩ := h
    rw [splineAdd_one s (inputPt xs 0) hpts x xs.length]
    have hL : (xs ++ [x]).length = 2 := by simp [hlen1]
    rw [if_neg (by omega), if_neg (by omega)]
    obtain ⟨v, rfl⟩ := List.length_eq_one.mp hlen1
    have hvx : v < x := hxall 0 (by simp)
    refine ⟨hE, ⟨[], (v, 0), by simp [inputPt]⟩, ?_, ?_, ?_, ?_, ?_, ?_, ?_⟩
    · intro q hq
      simp only [inputPt] at hq
      simp only [List.getD] at hq
      rcases List.mem_pair.mp (by simpa using hq) with rfl | rfl <;>
        simp [IsKnot]
    · simp [inputPt]
    · simp [inputPt]
    · refine List.chain'_pair.mpr ?_
      intro j h1 h2 h3
      dsimp only at h2
      have hj1 : j ≤ 1 := h2
      simp only [inputPt, List.getD]
      interval_cases j
      · have := segApprox_self_left E ((v : Nat), (0 : Nat)) (x, 1)
          (by exact_mod_cast Nat.le_of_lt hvx)
        simpa using this
      · have := segApprox_self_right E ((v : Nat), (0 : Nat)) (x, 1)
          (by exact_mod_cast Nat.le_of_lt hvx)
        simpa using this
    · show ((v, 0) : Nat × Nat).1 < x
      exact hvx
    · show ((v, 0) : Nat × Nat).1 < x
      exact hvx
    · intro j h1 h2
      have hj1 : j ≤ 1 := by simpa using Nat.lt_succ_iff.mp (by simpa using h2)
      simp only [inputPt, List.getD]
      constructor
      · interval_cases j
        · have := slope_anchor_up ((v : Nat), (0 : Nat))
            (x, ((1 : Nat) : Int) + (E : Int)) E (by exact_mod_cast Nat.le_of_lt hvx)
          simpa [hE] using this
        · have := slopeLe_rfl ((v : Nat), (0 : Nat)) (x, ((1 : Nat) : Int) + (E : Int))
          simpa [hE] using this
      · interval_cases j
        · have := slope_anchor_lo ((v : Nat), (0 : Nat))
            (x, ((1 : Nat) : Int) - (E : Int)) E (by exact_mod_cast Nat.le_of_lt hvx)
          simpa [hE] using this
        · have := slopeLe_rfl ((v : Nat), (0 : Nat)) (x, ((1 : Nat) : Int) - (E : Int))
          simpa [hE] using this
  · -- main case
    rw [if_neg (by omega), if_neg (by omega)] at h
    obtain ⟨hE, ⟨front, A, hdec⟩, hknots, hychain, hhead, hseg, hcu, hcl, hcorr⟩ := h
    have hanch : anchor s = A := anchor_decomp s front A _ hdec
    rw [hanch] at hcu hcl hcorr
    rw [hdec] at hknots hychain hhead hseg
    have hshape : ∃ a b t, s.pts = a :: b :: t := by
      cases front with
      | nil => exact ⟨A, inputPt xs (xs.length - 1), [], by simpa using hdec⟩
      | cons f fs =>
        rcases hq : fs ++ [A, inputPt xs (xs.length - 1)] with _ | ⟨b, t⟩
        · exact absurd hq (by simp)
        · exact ⟨f, b, t, by rw [hdec, List.cons_append, hq]⟩
    obtain ⟨a0, b0, t0, hshape0⟩ := hshape
    rw [splineAdd_two s a0 b0 t0 hshape0 x xs.length, hanch, hE]
    have hAknot : IsKnot xs A := hknots A (by simp)
    have hA2 : A.2 < xs.length - 1 := by
      have := (chain'_concat2 _ front A _).mp hychain
      exact this.2
    have hAx : A.1 = xs.getD A.2 0 := hAknot.2
    have hAx_lt : A.1 < x := by rw [hAx]; exact hxall A.2 (by omega)
    have hAx_le : ∀ j, A.2 ≤ j → j < xs.length →
        (A.1 : Int) ≤ (xs.getD j 0 : Int) := by
      intro j hj1 hj2
      rw [hAx]
      exact_mod_cast pairwise_getD_le xs hsortxs A.2 j hj1 hj2
    by_cases hin : slopeLe A (toPt (x, xs.length)) s.corrUp ∧
        slopeLe A s.corrLo (toPt (x, xs.length))
    · -- absorb
      rw [if_pos hin]
      have hL : (xs ++ [x]).length = xs.length + 1 := by simp
      rw [if_neg (by omega), if_neg (by omega)]
      have hpts' : s.pts.dropLast ++ [(x, xs.length)] =
          front ++ [A, (x, xs.length)] := by
        rw [hdec, show front ++ [A, inputPt xs (xs.length - 1)] =
          (front ++ [A]) ++ [inputPt xs (xs.length - 1)] by simp,
          List.dropLast_concat]
        simp
      have hlast' : inputPt (xs ++ [x]) ((xs ++ [x]).length - 1) =
          (x, xs.length) := by
        unfold inputPt
        rw [hL]
        simp [getD_append_len]
      have hcuZ : (A.1 : Int) < (s.corrUp.1 : Int) := by exact_mod_cast hcu
      have hclZ : (A.1 : Int) < (s.corrLo.1 : Int) := by exact_mod_cast hcl
      have hAxZ : (A.1 : Int) ≤ (x : Int) := by exact_mod_cast Nat.le_of_lt hAx_lt
      refine ⟨rfl, ⟨front, A, ?_⟩, ?_, ?_, ?_, ?_, ?_, ?_, ?_⟩
      · show s.pts.dropLast ++ [(x, xs.length)] = _
        rw [hlast', hpts']
      · intro q hq
        replace hq : q ∈ front ++ [A, (x, xs.length)] := by
          rw [← hpts']
          exact hq
        rcases List.mem_append.mp hq with hq1 | hq1
        · exact isKnot_mono xs x q (hknots q (List.mem_append.mpr (Or.inl hq1)))
        · rcases List.mem_pair.mp hq1 with h | h
          · rw [h]
            exact isKnot_mono xs x A hAknot
          · rw [h]
            exact ⟨by simp, (getD_append_len xs x).symm⟩
      · show List.Chain' _ (s.pts.dropLast ++ [(x, xs.length)])
        rw [hpts']
        exact (chain'_concat2 _ front A _).mpr
          ⟨((chain'_concat2 _ front A _).mp hychain).1, by
            show A.2 < xs.length
            omega⟩
      · show (s.pts.dropLast ++ [(x, xs.length)]).head? = _
        rw [hpts']
        have h1 : (front ++ A :: [(x, xs.length)]).head? =
            (front ++ A :: [inputPt xs (xs.length - 1)]).head? :=
          head_stable front A _ _
        rw [show front ++ [A, (x, xs.length)] =
          front ++ A :: [(x, xs.length)] by simp, h1]
        rw [show front ++ A :: [inputPt xs (xs.length - 1)] =
          front ++ [A, inputPt xs (xs.length - 1)] by simp, hhead]
        unfold inputPt
        rw [getD_append_lt xs x 0 (by omega)]
      · show List.Chain' _ (s.pts.dropLast ++ [(x, xs.length)])
        rw [hpts']
        refine (chain'_concat2 _ front A _).mpr ⟨?_, ?_⟩
        · exact chain'_segOk_mono E xs x (front ++ [A])
            (fun q hq => (hknots q (by
              rcases List.mem_append.mp hq with h1 | h1
              · exact List.mem_append.mpr (Or.inl h1)
              · simp at h1
                subst h1
                simp)).1)
            ((chain'_concat2 _ front A _).mp hseg).1
        · intro j hj1 hj2 hj3
          dsimp only at hj2
          rcases Nat.eq_or_lt_of_le hj2 with heq | hjn
          · rw [heq, getD_append_len]
            have := segApprox_self_right E A (x, xs.length)
              (by exact_mod_cast hAxZ)
            simpa using this
          · rw [getD_append_lt xs x j (by omega)]
            have hup : slopeLe A (toPt (x, xs.length))
                (xs.getD j 0, (j : Int) + (E : Int)) :=
              slopeLe_trans A _ s.corrUp _ (by exact hAxZ) hcuZ
                (hAx_le j hj1 (by omega)) hin.1 (hcorr j hj1 (by omega)).1
            have hlo : slopeLe A (xs.getD j 0, (j : Int) - (E : Int))
                (toPt (x, xs.length)) :=
              slopeLe_trans A _ s.corrLo _ (hAx_le j hj1 (by omega)) hclZ
                (by exact hAxZ) (hcorr j hj1 (by omega)).2 hin.2
            exact segApprox_of_slopes E A (x, xs.length) (xs.getD j 0) j hup hlo
      · unfold anchor
        dsimp only
        rw [hpts', getD_penult]
        split_ifs with hbu
        · exact hAx_lt
        · exact hcu
      · unfold anchor
        dsimp only
        rw [hpts', getD_penult]
        split_ifs with hbl
        · exact hAx_lt
        · exact hcl
      · unfold anchor
        dsimp only
        rw [hpts', getD_penult]
        intro j hj1 hj2
        rw [hL] at hj2
        constructor
        · by_cases hbu : slopeLe A (x, (xs.length : Int) + (E : Int)) s.corrUp
          · rw [if_pos hbu]
            rcases Nat.eq_or_lt_of_le (Nat.lt_succ_iff.mp hj2) with heq | hjn
            · rw [heq, getD_append_len]
              exact slopeLe_rfl A _
            · rw [getD_append_lt xs x j hjn]
              exact slopeLe_trans A _ s.corrUp _ hAxZ hcuZ (hAx_le j hj1 hjn)
                hbu (hcorr j hj1 hjn).1
          · rw [if_neg hbu]
            rcases Nat.eq_or_lt_of_le (Nat.lt_succ_iff.mp hj2) with heq | hjn
            · rw [heq, getD_append_len]
              exact slopeLe_of_not A _ _ hbu
            · rw [getD_append_lt xs x j hjn]
              exact (hcorr j hj1 hjn).1
        · by_cases hbl : slopeLe A s.corrLo (x, (xs.length : Int) - (E : Int))
          · rw [if_pos hbl]
            rcases Nat.eq_or_lt_of_le (Nat.lt_succ_iff.mp hj2) with heq | hjn
            · rw [heq, getD_append_len]
              exact slopeLe_rfl A _
            · rw [getD_append_lt xs x j hjn]
              exact slopeLe_trans A _ s.corrLo _ (hAx_le j hj1 hjn) hclZ hAxZ
                (hcorr j hj1 hjn).2 hbl
          · rw [if_neg hbl]
            rcases Nat.eq_or_lt_of_le (Nat.lt_succ_iff.mp hj2) with heq | hjn
            · rw [heq, getD_append_len]
              exact slopeLe_of_not A s.corrLo _ hbl
            · rw [getD_append_lt xs x j hjn]
              exact (hcorr j hj1 hjn).2
    · -- emit
      rw [if_neg hin]
      have hL : (xs ++ [x]).length = xs.length + 1 := by simp
      rw [if_neg (by omega), if_neg (by omega)]
      have hpts' : s.pts ++ [(x, xs.length)] =
          (front ++ [A]) ++ [inputPt xs (xs.length - 1), (x, xs.length)] := by
        rw [hdec]
        simp
      have hlast' : inputPt (xs ++ [x]) ((xs ++ [x]).length - 1) =
          (x, xs.length) := by
        unfold inputPt
        rw [hL]
        simp [getD_append_len]
      have hTx_lt : xs.getD (xs.length - 1) 0 < x := hxall _ (by omega)
      have hTxZ : ((inputPt xs (xs.length - 1)).1 : Int) ≤ (x : Int) := by
        show ((xs.getD (xs.length - 1) 0 : Nat) : Int) ≤ (x : Int)
        exact_mod_cast Nat.le_of_lt hTx_lt
      refine ⟨rfl, ⟨front ++ [A], inputPt xs (xs.length - 1), ?_⟩,
        ?_, ?_, ?_, ?_, ?_, ?_, ?_⟩
      · show s.pts ++ [(x, xs.length)] = _
        rw [hlast', hpts']
      · intro q hq
        rcases List.mem_append.mp hq with hq1 | hq1
        · rw [hdec] at hq1
          exact isKnot_mono xs x q (hknots q hq1)
        · simp only [List.mem_singleton] at hq1
          rw [hq1]
          exact ⟨by simp, (getD_append_len xs x).symm⟩
      · show List.Chain' _ (s.pts ++ [(x, xs.length)])
        rw [hpts']
        refine (chain'_concat2 _ (front ++ [A]) _ _).mpr ⟨?_, ?_⟩
        · rw [show (front ++ [A]) ++ [inputPt xs (xs.length - 1)] =
            front ++ [A, inputPt xs (xs.length - 1)] by simp]
          exact hychain
        · show xs.length - 1 < xs.length
          omega
      · show (s.pts ++ [(x, xs.length)]).head? = _
        rw [hdec, show (front ++ [A, inputPt xs (xs.length - 1)]) ++
          [(x, xs.length)] = front ++ A :: inputPt xs (xs.length - 1) ::
          [(x, xs.length)] by simp]
        rw [head_stable front A _ [inputPt xs (xs.length - 1)], hhead]
        unfold inputPt
        rw [getD_append_lt xs x 0 (by omega)]
      · show List.Chain' _ (s.pts ++ [(x, xs.length)])
        rw [hpts']
        refine (chain'_concat2 _ (front ++ [A]) _ _).mpr ⟨?_, ?_⟩
        · rw [show (front ++ [A]) ++ [inputPt xs (xs.length - 1)] =
            front ++ [A, inputPt xs (xs.length - 1)] by simp]
          exact chain'_segOk_mono E xs x _
            (fun q hq => (hknots q hq).1) hseg
        · intro j hj1 hj2 hj3
          simp only [inputPt] at hj1 hj2
          rcases Nat.eq_or_lt_of_le hj2 with heq | hjn
          · rw [heq, getD_append_len]
            have := segApprox_self_right E (inputPt xs (xs.length - 1))
              (x, xs.length) hTxZ
            simpa using this
          · have hj : j = xs.length - 1 := by omega
            rw [hj, getD_append_lt xs x _ (by omega)]
            have := segApprox_self_left E (inputPt xs (xs.length - 1))
              (x, xs.length) hTxZ
            simpa [inputPt] using this
      · unfold anchor
        dsimp only
        rw [hpts', getD_penult]
        exact hTx_lt
      · unfold anchor
        dsimp only
        rw [hpts', getD_penult]
        exact hTx_lt
      · unfold anchor
        dsimp only
        rw [hpts', getD_penult]
        intro j hj1 hj2
        rw [hL] at hj2
        simp only [inputPt] at hj1
        constructor
        · rcases Nat.eq_or_lt_of_le (Nat.lt_succ_iff.mp hj2) with heq | hjn
          · rw [heq, getD_append_len]
            exact slopeLe_rfl _ _
          · have hj : j = xs.length - 1 := by omega
            rw [hj, getD_append_lt xs x _ (by omega)]
            have := slope_anchor_up (inputPt xs (xs.length - 1))
              (x, (xs.length : Int) + (E : Int)) E hTxZ
            simpa [inputPt] using this
        · rcases Nat.eq_or_lt_of_le (Nat.lt_succ_iff.mp hj2) with heq | hjn
          · rw [heq, getD_append_len]
            exact slopeLe_rfl _ _
          · have hj : j = xs.length - 1 := by omega
            rw [hj, getD_append_lt xs x _ (by omega)]
            have := slope_anchor_lo (inputPt xs (xs.length - 1))
              (x, (xs.length : Int) - (E : Int)) E hTxZ
            simpa [inputPt] using this

theorem interpLoc_eq (a b : Nat × Nat) (k : Nat) (hab : a.1 < b.1) :
    interpLoc a b k = a.2 + (k - a.1) * (b.2 - a.2) / (b.1 - a.1) := by
  unfold interpLoc
  rw [if_neg (by omega)]

theorem interpNum_nat (a b : Nat × Nat) (x : Nat) (hab1 : a.1 ≤ b.1)
    (hab2 : a.2 ≤ b.2) (hx : a.1 ≤ x) :
    interpNum a b x =
      ((a.2 * (b.1 - a.1) + (x - a.1) * (b.2 - a.2) : Nat) : Int) := by
  have e1 : ((b.1 - a.1 : Nat) : Int) = (b.1 : Int) - (a.1 : Int) := by omega
  have e2 : ((b.2 - a.2 : Nat) : Int) = (b.2 : Int) - (a.2 : Int) := by omega
  have e3 : ((x - a.1 : Nat) : Int) = (x : Int) - (a.1 : Int) := by omega
  unfold interpNum
  push_cast [e1, e2, e3]
  ring

theorem interpLoc_bracket (E : Nat) (a b : Nat × Nat) (k p xp xp1 : Nat)
    (hab1 : a.1 < b.1) (hab2 : a.2 < b.2) (ha2p : a.2 ≤ p)
    (hxpa : a.1 ≤ xp) (hxpk : xp ≤ k) (hkb : k < b.1) (hkxp1 : k < xp1)
    (hlo : ((p : Int) - (E : Int)) * ((b.1 : Int) - (a.1 : Int)) ≤
      interpNum a b xp)
    (hhi : interpNum a b xp1 ≤
      (((p + 1 : Nat) : Int) + (E : Int)) * ((b.1 : Int) - (a.1 : Int))) :
    p ≤ interpLoc a b k + E ∧ interpLoc a b k ≤ p + E ∧
      interpLoc a b k < b.2 := by
  have hD : 0 < b.1 - a.1 := by omega
  have hΔ : 0 < b.2 - a.2 := by omega
  rw [interpLoc_eq a b k hab1]
  rw [interpNum_nat a b xp (by omega) (by omega) hxpa] at hlo
  rw [interpNum_nat a b xp1 (by omega) (by omega) (by omega)] at hhi
  have hlow : p ≤ a.2 + (k - a.1) * (b.2 - a.2) / (b.1 - a.1) + E := by
    by_cases hpE : p ≤ a.2 + E
    · exact le_trans hpE (Nat.add_le_add_right (Nat.le_add_right a.2 _) E)
    · have hMD : (p - E - a.2) * (b.1 - a.1) ≤ (xp - a.1) * (b.2 - a.2) := by
        have h1 : ((p - E - a.2 : Nat) : Int) * ((b.1 - a.1 : Nat) : Int) ≤
            (((xp - a.1) * (b.2 - a.2) : Nat) : Int) := by
          have e1 : ((p - E - a.2 : Nat) : Int) =
              (p : Int) - (E : Int) - (a.2 : Int) := by omega
          have e2 : ((b.1 - a.1 : Nat) : Int) = (b.1 : Int) - (a.1 : Int) := by
            omega
          rw [e1, e2]
          push_cast at hlo ⊢
          nlinarith [hlo]
        exact_mod_cast h1
      have h2 : (p - E - a.2) * (b.1 - a.1) ≤ (k - a.1) * (b.2 - a.2) :=
        le_trans hMD (Nat.mul_le_mul_right _ (by omega))
      have h3 : p - E - a.2 ≤ (k - a.1) * (b.2 - a.2) / (b.1 - a.1) :=
        (Nat.le_div_iff_mul_le hD).mpr h2
      calc p = a.2 + (p - E - a.2) + E := by omega
        _ ≤ a.2 + (k - a.1) * (b.2 - a.2) / (b.1 - a.1) + E :=
          Nat.add_le_add_right (Nat.add_le_add_left h3 _) _
  have hup : a.2 + (k - a.1) * (b.2 - a.2) / (b.1 - a.1) ≤ p + E := by
    have hVD : (xp1 - a.1) * (b.2 - a.2) ≤
        (p + 1 + E - a.2) * (b.1 - a.1) := by
      have h1 : (((xp1 - a.1) * (b.2 - a.2) : Nat) : Int) ≤
          ((p + 1 + E - a.2 : Nat) : Int) * ((b.1 - a.1 : Nat) : Int) := by
        have e1 : ((p + 1 + E - a.2 : Nat) : Int) =
            (p : Int) + 1 + (E : Int) - (a.2 : Int) := by omega
        have e2 : ((b.1 - a.1 : Nat) : Int) = (b.1 : Int) - (a.1 : Int) := by
          omega
        rw [e1, e2]
        push_cast at hhi ⊢
        nlinarith [hhi]
      exact_mod_cast h1
    have h2 : (k - a.1) * (b.2 - a.2) + (b.2 - a.2) ≤
        (xp1 - a.1) * (b.2 - a.2) := by
      have h2a : (k - a.1 + 1) * (b.2 - a.2) ≤ (xp1 - a.1) * (b.2 - a.2) :=
        Nat.mul_le_mul_right _ (by omega)
      calc (k - a.1) * (b.2 - a.2) + (b.2 - a.2)
          = (k - a.1 + 1) * (b.2 - a.2) := by ring
        _ ≤ _ := h2a
    have h3 : (k - a.1) * (b.2 - a.2) < (p + 1 + E - a.2) * (b.1 - a.1) := by
      omega
    have he : p + 1 + E - a.2 = (p + E - a.2) + 1 := by omega
    have h4 : (k - a.1) * (b.2 - a.2) / (b.1 - a.1) < (p + E - a.2) + 1 :=
      he ▸ (Nat.div_lt_iff_lt_mul hD).mpr h3
    have h5 : (k - a.1) * (b.2 - a.2) / (b.1 - a.1) ≤ p + E - a.2 :=
      Nat.lt_succ_iff.mp h4
    calc a.2 + (k - a.1) * (b.2 - a.2) / (b.1 - a.1)
        ≤ a.2 + (p + E - a.2) := Nat.add_le_add_left h5 _
      _ = p + E := by omega
  have hb2f : a.2 + (k - a.1) * (b.2 - a.2) / (b.1 - a.1) < b.2 := by
    have h1 : (k - a.1) * (b.2 - a.2) < (b.2 - a.2) * (b.1 - a.1) := by
      rw [mul_comm (b.2 - a.2)]
      exact Nat.mul_lt_mul_of_lt_of_le (by omega) (le_refl _) hΔ
    have h2 : (k - a.1) * (b.2 - a.2) / (b.1 - a.1) < b.2 - a.2 :=
      (Nat.div_lt_iff_lt_mul hD).mpr h1
    calc a.2 + (k - a.1) * (b.2 - a.2) / (b.1 - a.1)
        < a.2 + (b.2 - a.2) := Nat.add_lt_add_left h2 _
      _ = b.2 := by omega
  exact ⟨hlow, hup, hb2f⟩

theorem findSeg_loc (E : Nat) (xs : List Nat)
    (hsort : List.Pairwise (· < ·) xs) (k p : Nat) (hp : p < xs.length)
    (hpk : xs.getD p 0 ≤ k)
    (hkp1 : p + 1 < xs.length → k < xs.getD (p + 1) 0) :
    ∀ l : List (Nat × Nat), l ≠ [] → (∀ q ∈ l, IsKnot xs q) →
    List.Chain' (fun a b => a.2 < b.2) l → List.Chain' (SegOk E xs) l →
    (∀ a, l.head? = some a → a.1 ≤ k) →
    l.getLast? = some (inputPt xs (xs.length - 1)) →
    p ≤ findSeg l k + E ∧ findSeg l k ≤ p + E ∧
      findSeg l k ≤ xs.length - 1 := by
  intro l
  induction l with
  | nil => intro h; exact absurd rfl h
  | cons a tl ih =>
    cases tl with
    | nil =>
      intro _ hknots _ _ hhead hlast
      simp only [List.getLast?_singleton, Option.some.injEq] at hlast
      have hhead' := hhead a rfl
      rw [hlast] at hhead'
      simp only [inputPt] at hhead'
      have hpn : p = xs.length - 1 := by
        by_contra hne
        have h1 : p + 1 < xs.length := by omega
        have h2 : k < xs.getD (p + 1) 0 := hkp1 h1
        have h3 : xs.getD (p + 1) 0 ≤ xs.getD (xs.length - 1) 0 :=
          pairwise_getD_le xs hsort (p + 1) (xs.length - 1) (by omega)
            (by omega)
        omega
      show p ≤ a.2 + E ∧ a.2 ≤ p + E ∧ a.2 ≤ xs.length - 1
      rw [hlast]
      simp only [inputPt]
      omega
    | cons b rest =>
      intro _ hknots hchain hseg hhead hlast
      have hhead' : a.1 ≤ k := hhead a rfl
      have ha := hknots a (List.mem_cons_self a _)
      have hb := hknots b (List.mem_cons_of_mem a (List.mem_cons_self b _))
      have hab2 : a.2 < b.2 := (List.chain'_cons.mp hchain).1
      by_cases hkb : k < b.1
      · simp only [findSeg]
        rw [if_pos hkb]
        obtain ⟨ha2, ha1⟩ := ha
        obtain ⟨hb2, hb1⟩ := hb
        have hseg1 : SegOk E xs a b := (List.chain'_cons.mp hseg).1
        have ha2p : a.2 ≤ p := by
          by_contra hcon
          push_neg at hcon
          have h1 : p + 1 < xs.length := by omega
          have h2 := hkp1 h1
          have h3 : xs.getD (p + 1) 0 ≤ xs.getD a.2 0 :=
            pairwise_getD_le xs hsort _ _ (by omega) ha2
          omega
        have hpb2 : p < b.2 := by
          by_contra hcon
          push_neg at hcon
          have h3 : xs.getD b.2 0 ≤ xs.getD p 0 :=
            pairwise_getD_le xs hsort _ _ hcon hp
          omega
        have hp1n : p + 1 < xs.length := by omega
        have happrox_p := hseg1 p ha2p (by omega) (by omega)
        have happrox_p1 := hseg1 (p + 1) (by omega) (by omega) hp1n
        have hxpa : a.1 ≤ xs.getD p 0 := by
          rw [ha1]
          exact pairwise_getD_le xs hsort _ _ ha2p (by omega)
        have hab1 : a.1 < b.1 := by omega
        have hbr := interpLoc_bracket E a b k p (xs.getD p 0)
          (xs.getD (p + 1) 0) hab1 hab2 ha2p hxpa hpk hkb (hkp1 hp1n)
          happrox_p.1 happrox_p1.2
        refine ⟨hbr.1, hbr.2.1, ?_⟩
        have h5 := hbr.2.2
        omega
      · simp only [findSeg]
        rw [if_neg hkb]
        refine ih (by simp) (fun q hq => hknots q (List.mem_cons_of_mem a hq))
          (List.chain'_cons.mp hchain).2 (List.chain'_cons.mp hseg).2
          ?_ ?_
        · intro a' ha'
          simp only [List.head?_cons, Option.some.injEq] at ha'
          rw [← ha']
          omega
        · rw [← List.getLast?_cons_cons]
          exact hlast

theorem splineFind_bracket (E : Nat) (xs : List Nat) (s : Spline)
    (hst : SplState E xs s) (hsort : List.Pairwise (· < ·) xs)
    (k p : Nat) (hp : p < xs.length) (hpk : xs.getD p 0 ≤ k)
    (hkp1 : p + 1 < xs.length → k < xs.getD (p + 1) 0) :
    (splineFind s k 0 xs.length).2.1 ≤ p ∧
    p ≤ (splineFind s k 0 xs.length).2.2 ∧
    (splineFind s k 0 xs.length).1 ≤ xs.length - 1 ∧
    (splineFind s k 0 xs.length).2.2 ≤ xs.length - 1 ∧
    (splineFind s k 0 xs.length).2.1 ≤ (splineFind s k 0 xs.length).1 ∧
    (splineFind s k 0 xs.length).1 ≤ (splineFind s k 0 xs.length).2.2 := by
  have hME : s.maxError = E := by
    unfold SplState at hst
    split_ifs at hst with h0 h1
    · rw [hst]; rfl
    · exact hst.2
    · exact hst.1
  have hbr : p ≤ findSeg s.pts k + E ∧ findSeg s.pts k ≤ p + E ∧
      findSeg s.pts k ≤ xs.length - 1 := by
    unfold SplState at hst
    rw [if_neg (by omega)] at hst
    by_cases h1 : xs.length = 1
    · rw [if_pos h1] at hst
      obtain ⟨hpts, hE⟩ := hst
      rw [hpts]
      simp only [findSeg, inputPt]
      omega
    · rw [if_neg h1] at hst
      obtain ⟨hE, ⟨front, A, hdec⟩, hknots, hychain, hhead, hseg, _⟩ := hst
      refine findSeg_loc E xs hsort k p hp hpk hkp1 s.pts
        (by rw [hdec]; simp) hknots hychain hseg ?_ ?_
      · intro a ha
        rw [hhead] at ha
        injection ha with ha
        rw [← ha]
        show (inputPt xs 0).1 ≤ k
        have h2 := pairwise_getD_le xs hsort 0 p (Nat.zero_le p) hp
        simpa [inputPt] using le_trans h2 hpk
      · rw [hdec, show front ++ [A, inputPt xs (xs.length - 1)] =
          (front ++ [A]) ++ [inputPt xs (xs.length - 1)] by simp]
        exact List.getLast?_concat _
  obtain ⟨hb1, hb2, hb3⟩ := hbr
  simp only [splineFind, hME]
  refine ⟨?_, ?_, ?_, ?_, ?_, ?_⟩ <;> omega


theorem searchLoop_finds (pg : Page) (k : Nat) (i0 : Nat)
    (hsorted : List.Pairwise (fun r t => r.key < t.key) pg)
    (hi0 : i0 < pg.length)
    (hk : (pg.get ⟨i0, hi0⟩).key = k) :
    ∀ fuel : Nat, ∀ first last middle : Int,
    0 ≤ first → first ≤ (i0 : Int) → (i0 : Int) ≤ last →
    last ≤ (pg.length : Int) - 1 →
    first ≤ middle → middle ≤ last →
    (last - first).toNat < fuel →
    searchLoop fuel pg k first last middle = some i0 := by
  have hmono : ∀ i j (hi : i < pg.length) (hj : j < pg.length), i < j →
      (pg.get ⟨i, hi⟩).key < (pg.get ⟨j, hj⟩).key := by
    intro i j hi hj hij
    exact List.pairwise_iff_getElem.mp hsorted i j hi hj hij
  intro fuel
  induction fuel with
  | zero => intro first last middle _ h2 h3 _ _ _ hf; omega
  | succ fuel ih =>
    intro first last middle h1 h2 h3 h4 h5 h6 hfuel
    have hfl : first ≤ last := le_trans h2 h3
    have hm0 : 0 ≤ middle := le_trans h1 h5
    have hmlen : middle.toNat < pg.length := by omega
    simp only [searchLoop]
    rw [if_pos hfl]
    split
    · next heq =>
      rw [List.get?_eq_get hmlen] at heq
      cases heq
    · next r heq =>
      rw [List.get?_eq_get hmlen] at heq
      injection heq with heq
      subst heq
      by_cases hlt : (pg.get ⟨middle.toNat, hmlen⟩).key < k
      · have hmi : middle.toNat < i0 := by
          by_contra hcon
          push_neg at hcon
          rcases Nat.eq_or_lt_of_le hcon with heq2 | hgt
          · have hfe : (⟨i0, hi0⟩ : Fin pg.length) = ⟨middle.toNat, hmlen⟩ := by
              simp only [Fin.mk.injEq]
              omega
            rw [hfe] at hk
            omega
          · have := hmono i0 middle.toNat hi0 hmlen hgt
            omega
        rw [if_pos hlt]
        exact ih (middle + 1) last ((middle + 1 + last) / 2) (by omega)
          (by omega) h3 h4 (by omega) (by omega) (by omega)
      · rw [if_neg hlt]
        by_cases heq : (pg.get ⟨middle.toNat, hmlen⟩).key = k
        · rw [if_pos heq]
          have hmi : middle.toNat = i0 := by
            by_contra hcon
            rcases Nat.lt_or_ge middle.toNat i0 with hgt | hge
            · have := hmono middle.toNat i0 hmlen hi0 hgt
              omega
            · have hgt2 : i0 < middle.toNat := by omega
              have := hmono i0 middle.toNat hi0 hmlen hgt2
              omega
          rw [hmi]
        · rw [if_neg heq]
          have hik : k < (pg.get ⟨middle.toNat, hmlen⟩).key := by omega
          have hmi : i0 < middle.toNat := by
            by_contra hcon
            push_neg at hcon
            rcases Nat.eq_or_lt_of_le hcon with heq2 | hgt
            · have hfe : (⟨i0, hi0⟩ : Fin pg.length) =
                  ⟨middle.toNat, hmlen⟩ := by
                simp only [Fin.mk.injEq]
                omega
              rw [hfe] at hk
              omega
            · have := hmono middle.toNat i0 hmlen hi0 hgt
              omega
          exact ih first (middle - 1) ((first + middle - 1) / 2) h1 h2
            (by omega) (by omega) (by omega) (by omega) (by omega)

theorem sbitsSearchNode_finds (est : Int) (pg : Page) (k : Nat) (i0 : Nat)
    (hsorted : List.Pairwise (fun r t => r.key < t.key) pg)
    (hi0 : i0 < pg.length) (hk : (pg.get ⟨i0, hi0⟩).key = k) :
    sbitsSearchNode est pg k = some i0 := by
  simp only [sbitsSearchNode]
  refine searchLoop_finds pg k i0 hsorted hi0 hk _ _ _ _ ?_ ?_ ?_ ?_ ?_ ?_ ?_
  all_goals try split_ifs
  all_goals omega

theorem linearLoop_finds (pages : List Page) (N k : Nat) (p : Nat)
    (hp : p < pages.length) (hN : pages.length ≤ N)
    (hleft : ∀ i (h : i < pages.length), i < p →
      pageMinKey (pages.get ⟨i, h⟩) ≤ k ∧ pageMaxKey (pages.get ⟨i, h⟩) < k)
    (hright : ∀ i (h : i < pages.length), p < i →
      k < pageMinKey (pages.get ⟨i, h⟩))
    (hatlo : pageMinKey (pages.get ⟨p, hp⟩) ≤ k)
    (hathi : k ≤ pageMaxKey (pages.get ⟨p, hp⟩)) :
    ∀ fuel : Nat, ∀ pageId low high : Int,
    0 ≤ low → low ≤ pageId → pageId ≤ high →
    high ≤ (pages.length : Int) - 1 →
    low ≤ (p : Int) → (p : Int) ≤ high →
    (pageId - (p : Int)).natAbs < fuel →
    linearLoop fuel pages N k pageId low high =
      some (pages.get ⟨p, hp⟩) := by
  intro fuel
  induction fuel with
  | zero => intro _ _ _ _ _ _ _ _ _ hf; omega
  | succ fuel ih =>
    intro pageId low high h1 h2 h3 h4 h5 h6 hfuel
    simp only [linearLoop]
    rw [if_neg (by omega)]
    have hid0 : 0 ≤ pageId := le_trans h1 h2
    have hidlen : pageId < (pages.length : Int) := by omega
    have hmod : pageId % (N : Int) = pageId :=
      Int.emod_eq_of_lt hid0 (by omega)
    rw [hmod]
    have hidnat : pageId.toNat < pages.length := by omega
    split
    · next heq =>
      rw [List.get?_eq_get hidnat] at heq
      cases heq
    · next pg heq =>
      rw [List.get?_eq_get hidnat] at heq
      injection heq with heq
      subst heq
      by_cases hlt : k < pageMinKey (pages.get ⟨pageId.toNat, hidnat⟩)
      · have hpi : (p : Int) < pageId := by
          rcases Nat.lt_trichotomy pageId.toNat p with hc | hc | hc
          · have := (hleft pageId.toNat hidnat hc).1
            omega
          · have hfe : (⟨p, hp⟩ : Fin pages.length) =
                ⟨pageId.toNat, hidnat⟩ := by
              simp only [Fin.mk.injEq]
              omega
            rw [hfe] at hatlo
            omega
          · omega
        rw [if_pos hlt]
        exact ih (pageId - 1) low (pageId - 1) h1 (by omega) (by omega)
          (by omega) h5 (by omega) (by omega)
      · rw [if_neg hlt]
        by_cases hgt : pageMaxKey (pages.get ⟨pageId.toNat, hidnat⟩) < k
        · have hpi : pageId < (p : Int) := by
            rcases Nat.lt_trichotomy pageId.toNat p with hc | hc | hc
            · omega
            · have hfe : (⟨p, hp⟩ : Fin pages.length) =
                  ⟨pageId.toNat, hidnat⟩ := by
                simp only [Fin.mk.injEq]
                omega
              rw [hfe] at hathi
              omega
            · have := hright pageId.toNat hidnat hc
              omega
          rw [if_pos hgt]
          exact ih (pageId + 1) (pageId + 1) high (by omega) (by omega)
            (by omega) h4 (by omega) h6 (by omega)
        · rw [if_neg hgt]
          have hfe : (⟨pageId.toNat, hidnat⟩ : Fin pages.length) =
              ⟨p, hp⟩ := by
            simp only [Fin.mk.injEq]
            rcases Nat.lt_trichotomy pageId.toNat p with hc | hc | hc
            · have := (hleft pageId.toNat hidnat hc).2
              omega
            · exact hc
            · have := hright pageId.toNat hidnat hc
              omega
          rw [hfe]
theorem pageMinKey_cons (a : Rec) (rest : List Rec) :
    pageMinKey (a :: rest) = a.key := rfl

theorem pageMaxKey_cons_cons (a b : Rec) (rest : List Rec) :
    pageMaxKey (a :: b :: rest) = pageMaxKey (b :: rest) := by
  unfold pageMaxKey
  rw [List.getLast?_cons_cons]

theorem pageMaxKey_mem (pg : Page) (h : pg ≠ []) :
    ∃ r ∈ pg, r.key = pageMaxKey pg := by
  induction pg with
  | nil => exact absurd rfl h
  | cons a rest ih =>
    cases rest with
    | nil =>
      refine ⟨a, List.mem_cons_self a _, ?_⟩
      simp [pageMaxKey]
    | cons b rest2 =>
      obtain ⟨r, hrmem, hrk⟩ := ih (by simp)
      exact ⟨r, List.mem_cons_of_mem a hrmem,
        by rw [hrk, pageMaxKey_cons_cons]⟩

theorem pageMinKey_mem (pg : Page) (h : pg ≠ []) :
    ∃ r ∈ pg, r.key = pageMinKey pg := by
  cases pg with
  | nil => exact absurd rfl h
  | cons a rest => exact ⟨a, List.mem_cons_self a _, rfl⟩

theorem pageMinKey_le (pg : Page)
    (hsorted : List.Pairwise (fun r t => r.key < t.key) pg)
    (r : Rec) (hr : r ∈ pg) : pageMinKey pg ≤ r.key := by
  cases pg with
  | nil => cases hr
  | cons a rest =>
    rw [pageMinKey_cons]
    rcases List.mem_cons.mp hr with h | h
    · rw [h]
    · exact le_of_lt ((List.pairwise_cons.mp hsorted).1 r h)

theorem le_pageMaxKey (pg : Page)
    (hsorted : List.Pairwise (fun r t => r.key < t.key) pg)
    (r : Rec) (hr : r ∈ pg) : r.key ≤ pageMaxKey pg := by
  induction pg with
  | nil => cases hr
  | cons a rest ih =>
    cases rest with
    | nil =>
      rcases List.mem_singleton.mp hr with h
      rw [h]
      simp [pageMaxKey]
    | cons b rest2 =>
      rw [pageMaxKey_cons_cons]
      rcases List.mem_cons.mp hr with h | h
      · obtain ⟨t, htmem, htk⟩ := pageMaxKey_mem (b :: rest2) (by simp)
        have hlt := (List.pairwise_cons.mp hsorted).1 t htmem
        rw [h]
        omega
      · exact ih (List.pairwise_cons.mp hsorted).2 h

theorem pairwise_minKey (ps : List Page)
    (hne : ∀ pg ∈ ps, pg ≠ [])
    (hsorted : List.Pairwise (fun r t => r.key < t.key) ps.flatten) :
    List.Pairwise (· < ·) (ps.map pageMinKey) := by
  induction ps with
  | nil => exact List.Pairwise.nil
  | cons pg ps ih =>
    rw [List.map_cons]
    rw [List.flatten_cons] at hsorted
    obtain ⟨hpg, hps, hcross⟩ := List.pairwise_append.mp hsorted
    refine List.pairwise_cons.mpr ⟨?_, ih
      (fun q hq => hne q (List.mem_cons_of_mem _ hq)) hps⟩
    intro x hx
    obtain ⟨q, hq, hqx⟩ := List.mem_map.mp hx
    obtain ⟨r0, hr0, hr0k⟩ :=
      pageMinKey_mem pg (hne pg (List.mem_cons_self pg ps))
    obtain ⟨r1, hr1, hr1k⟩ :=
      pageMinKey_mem q (hne q (List.mem_cons_of_mem _ hq))
    have hlt := hcross r0 hr0 r1 (List.mem_flatten.mpr ⟨q, hq, hr1⟩)
    rw [← hqx, ← hr1k, ← hr0k]
    exact hlt

theorem flatten_length_const (ps : List Page) (m : Nat)
    (h : ∀ pg ∈ ps, pg.length = m) :
    ps.flatten.length = ps.length * m := by
  induction ps with
  | nil => simp
  | cons pg ps ih =>
    rw [List.flatten_cons, List.length_append,
      h pg (List.mem_cons_self pg ps),
      ih (fun q hq => h q (List.mem_cons_of_mem _ hq))]
    simp [List.length_cons]
    ring

theorem writeVariablePage_frame (s : EState) :
    (writeVariablePage s).pages = s.pages ∧
    (writeVariablePage s).wbuf = s.wbuf ∧
    (writeVariablePage s).spl = s.spl ∧
    (writeVariablePage s).endDataPage = s.endDataPage ∧
    (writeVariablePage s).maxRecordsPerPage = s.maxRecordsPerPage ∧
    (writeVariablePage s).minVarRecordId =
      (if s.numAvailVarPages ≤ 0 then
        s.varHeaders.getD
          ((s.nextVarPageId % s.numVarPages + s.eraseSizeInPages - 1) %
            s.numVarPages) 0 + 1
      else s.minVarRecordId) := by
  simp only [writeVariablePage]
  split_ifs <;> exact ⟨rfl, rfl, rfl, rfl, rfl, rfl⟩

theorem splineAdd_maxError (s : Spline) (x y : Nat) :
    (splineAdd s x y).maxError = s.maxError := by
  unfold splineAdd
  split
  · rfl
  · rfl
  · split_ifs <;> rfl

theorem sbitsPut_frame (s : EState) (k d : Nat) :
    (sbitsPut s k d).2.maxRecordsPerPage = s.maxRecordsPerPage ∧
    (sbitsPut s k d).2.endDataPage = s.endDataPage := by
  simp only [sbitsPut, flushDataPage]
  split_ifs <;> exact ⟨rfl, rfl⟩

theorem sbitsPut_of_lt (s : EState) (k d : Nat)
    (h : s.wbuf.length < s.maxRecordsPerPage) :
    (sbitsPut s k d).2 = { s with wbuf := s.wbuf ++ [mkRec s k d] } := by
  simp only [sbitsPut]
  rw [if_neg (by omega)]

theorem sbitsPut_of_full (s : EState) (k d : Nat)
    (h : s.maxRecordsPerPage ≤ s.wbuf.length) :
    (sbitsPut s k d).2 =
      { flushDataPage s with wbuf := [mkRec (flushDataPage s) k d] } := by
  simp only [sbitsPut]
  rw [if_pos h]
  rfl


theorem engInv_initE (maxR numPages eraseSize : Nat) (useV : Bool)
    (pageSize keySize numVarPages maxError : Nat) (h : 0 < maxR) :
    EngInv (initE maxR numPages eraseSize useV pageSize keySize
      numVarPages maxError) := by
  refine ⟨h, ?_, ?_, ?_, ?_⟩ <;>
    simp [initE, allRecs, SplState, splineInit]

theorem engInv_put (s : EState) (k d : Nat) (h : EngInv s)
    (hgt : ∀ r ∈ allRecs s, r.key < k) :
    EngInv (sbitsPut s k d).2 ∧
    ∃ r : Rec, allRecs (sbitsPut s k d).2 = allRecs s ++ [r] ∧
      r.key = k ∧ r.data = d := by
  obtain ⟨hmR, hlen, hwlen, hsorted, hsp⟩ := h
  by_cases hfull : s.maxRecordsPerPage ≤ s.wbuf.length
  · rw [sbitsPut_of_full s k d hfull]
    have hwb : s.wbuf.length = s.maxRecordsPerPage := le_antisymm hwlen hfull
    have hwbne : s.wbuf ≠ [] := by
      intro hnil
      rw [hnil] at hwb
      simp at hwb
      omega
    have hpgne : ∀ pg ∈ s.pages, pg ≠ [] := by
      intro pg hpg hnil
      have h2 := hlen pg hpg
      rw [hnil] at h2
      simp at h2
      omega
    have hkeys : allRecs { flushDataPage s with
        wbuf := [mkRec (flushDataPage s) k d] } =
        allRecs s ++ [mkRec (flushDataPage s) k d] := by
      simp [allRecs, flushDataPage, List.flatten_append]
    refine ⟨⟨hmR, ?_, ?_, ?_, ?_⟩,
      mkRec (flushDataPage s) k d, hkeys, rfl, rfl⟩
    · intro pg hpg
      rcases List.mem_append.mp hpg with h1 | h1
      · exact hlen pg h1
      · rw [List.mem_singleton.mp h1]
        exact hwb
    · show 1 ≤ s.maxRecordsPerPage
      omega
    · rw [hkeys]
      refine List.pairwise_append.mpr ⟨hsorted, List.pairwise_singleton _ _,
        ?_⟩
      intro x hx y hy
      rw [List.mem_singleton.mp hy]
      exact hgt x hx
    · show SplState
        (splineAdd s.spl (pageMinKey s.wbuf) s.pages.length).maxError
        ((s.pages ++ [s.wbuf]).map pageMinKey)
        (splineAdd s.spl (pageMinKey s.wbuf) s.pages.length)
      have hsort2 : List.Pairwise (· < ·)
          (s.pages.map pageMinKey ++ [pageMinKey s.wbuf]) := by
        have h3 := pairwise_minKey (s.pages ++ [s.wbuf]) ?_ ?_
        · simpa using h3
        · intro q hq
          rcases List.mem_append.mp hq with h1 | h1
          · exact hpgne q h1
          · rw [List.mem_singleton.mp h1]
            exact hwbne
        · rw [List.flatten_append]
          simpa [allRecs] using hsorted
      have hmain := splState_add s.spl.maxError (s.pages.map pageMinKey)
        (pageMinKey s.wbuf) s.spl hsort2 hsp
      rw [List.length_map] at hmain
      rw [splineAdd_maxError, List.map_append]
      simpa using hmain
  · rw [sbitsPut_of_lt s k d (by omega)]
    have hkeys : allRecs { s with wbuf := s.wbuf ++ [mkRec s k d] } =
        allRecs s ++ [mkRec s k d] := by
      simp [allRecs]
    refine ⟨⟨hmR, hlen, ?_, ?_, hsp⟩, mkRec s k d, hkeys, rfl, rfl⟩
    · simp only [List.length_append, List.length_cons, List.length_nil]
      omega
    · rw [hkeys]
      refine List.pairwise_append.mpr ⟨hsorted, List.pairwise_singleton _ _,
        ?_⟩
      intro x hx y hy
      rw [List.mem_singleton.mp hy]
      exact hgt x hx

theorem runPuts_spec (kds : List (Nat × Nat)) :
    ∀ s : EState, EngInv s →
    List.Pairwise (fun a b => a.1 < b.1) kds →
    (∀ r ∈ allRecs s, ∀ kd ∈ kds, r.key < kd.1) →
    EngInv (runPuts s kds) ∧
    (runPuts s kds).maxRecordsPerPage = s.maxRecordsPerPage ∧
    (runPuts s kds).endDataPage = s.endDataPage ∧
    ∃ rs : List Rec, allRecs (runPuts s kds) = allRecs s ++ rs ∧
      rs.map Rec.key = kds.map Prod.fst ∧
      rs.map Rec.data = kds.map Prod.snd := by
  induction kds with
  | nil => intro s h _ _; exact ⟨h, rfl, rfl, [], by simp [runPuts], rfl, rfl⟩
  | cons kd rest ih =>
    obtain ⟨k, d⟩ := kd
    intro s h hpair hgt
    obtain ⟨hinv1, r, hall, hrk, hrd⟩ := engInv_put s k d h
      (fun r hr => hgt r hr (k, d) (List.mem_cons_self _ rest))
    have hframe := sbitsPut_frame s k d
    have hstep : runPuts s ((k, d) :: rest) =
        runPuts (sbitsPut s k d).2 rest := rfl
    have hnext : ∀ r2 ∈ allRecs (sbitsPut s k d).2, ∀ kd2 ∈ rest,
        r2.key < kd2.1 := by
      intro r2 hr2 kd2 hkd2
      rw [hall] at hr2
      rcases List.mem_append.mp hr2 with h1 | h1
      · exact hgt r2 h1 kd2 (List.mem_cons_of_mem _ hkd2)
      · rw [List.mem_singleton.mp h1, hrk]
        exact (List.pairwise_cons.mp hpair).1 kd2 hkd2
    obtain ⟨hinv2, hfr1, hfr2, rs, hall2, hkeys2, hdata2⟩ :=
      ih (sbitsPut s k d).2 hinv1 (List.pairwise_cons.mp hpair).2 hnext
    refine ⟨hstep ▸ hinv2, ?_, ?_, r :: rs, ?_, ?_, ?_⟩
    · rw [hstep, hfr1, hframe.1]
    · rw [hstep, hfr2, hframe.2]
    · rw [hstep, hall2, hall]
      simp
    · simp [hkeys2, hrk]
    · simp [hdata2, hrd]

theorem runPuts_wbuf_ne (kds : List (Nat × Nat)) (hne : kds ≠ []) :
    ∀ s : EState, (runPuts s kds).wbuf ≠ [] := by
  induction kds with
  | nil => exact absurd rfl hne
  | cons kd rest ih =>
    obtain ⟨k, d⟩ := kd
    intro s
    cases rest with
    | nil =>
      show (sbitsPut s k d).2.wbuf ≠ []
      simp only [sbitsPut]
      intro hcon
      have h2 := (List.append_eq_nil.mp hcon).2
      cases h2
    | cons kd2 rest2 => exact ih (by simp) _

theorem engInv_flushed (s : EState) (h : EngInv s) (hwne : s.wbuf ≠ []) :
    (∀ pg ∈ (sbitsFlush s).2.pages, pg ≠ []) ∧
    List.Pairwise (fun r t => r.key < t.key) (sbitsFlush s).2.pages.flatten ∧
    SplState (sbitsFlush s).2.spl.maxError
      ((sbitsFlush s).2.pages.map pageMinKey) (sbitsFlush s).2.spl ∧
    (sbitsFlush s).2.pages.length = s.pages.length + 1 ∧
    (sbitsFlush s).2.pages.flatten = allRecs s ∧
    (sbitsFlush s).2.endDataPage = s.endDataPage := by
  obtain ⟨hmR, hlen, hwlen, hsorted, hsp⟩ := h
  have hpgne : ∀ pg ∈ s.pages, pg ≠ [] := by
    intro pg hpg hnil
    have h2 := hlen pg hpg
    rw [hnil] at h2
    simp at h2
    omega
  have hbase : (∀ pg ∈ (flushDataPage s).pages, pg ≠ []) ∧
      List.Pairwise (fun r t => r.key < t.key)
        (flushDataPage s).pages.flatten ∧
      SplState (flushDataPage s).spl.maxError
        ((flushDataPage s).pages.map pageMinKey) (flushDataPage s).spl ∧
      (flushDataPage s).pages.length = s.pages.length + 1 ∧
      (flushDataPage s).pages.flatten = allRecs s ∧
      (flushDataPage s).endDataPage = s.endDataPage := by
    have hflat : (flushDataPage s).pages.flatten = allRecs s := by
      simp [allRecs, flushDataPage, List.flatten_append]
    refine ⟨?_, ?_, ?_, by simp [flushDataPage], hflat, rfl⟩
    · intro pg hpg
      rcases List.mem_append.mp hpg with h1 | h1
      · exact hpgne pg h1
      · rw [List.mem_singleton.mp h1]
        exact hwne
    · rw [hflat]
      exact hsorted
    · show SplState
        (splineAdd s.spl (pageMinKey s.wbuf) s.pages.length).maxError
        ((s.pages ++ [s.wbuf]).map pageMinKey)
        (splineAdd s.spl (pageMinKey s.wbuf) s.pages.length)
      have hsort2 : List.Pairwise (· < ·)
          (s.pages.map pageMinKey ++ [pageMinKey s.wbuf]) := by
        have h3 := pairwise_minKey (s.pages ++ [s.wbuf]) ?_ ?_
        · simpa using h3
        · intro q hq
          rcases List.mem_append.mp hq with h1 | h1
          · exact hpgne q h1
          · rw [List.mem_singleton.mp h1]
            exact hwne
        · rw [List.flatten_append]
          simpa [allRecs] using hsorted
      have hmain := splState_add s.spl.maxError (s.pages.map pageMinKey)
        (pageMinKey s.wbuf) s.spl hsort2 hsp
      rw [List.length_map] at hmain
      rw [splineAdd_maxError, List.map_append]
      simpa using hmain
  have hcase : (sbitsFlush s).2 = (flushDataPage s) ∨
      (sbitsFlush s).2 = writeVariablePage (flushDataPage s) := by
    simp only [sbitsFlush]
    split_ifs with hv
    · exact Or.inr rfl
    · exact Or.inl rfl
  rcases hcase with hc | hc
  · rw [hc]
    exact hbase
  · rw [hc]
    have hfr := writeVariablePage_frame (flushDataPage s)
    rw [hfr.1, hfr.2.2.1, hfr.2.2.2.1]
    exact hbase


theorem get_finds (s : EState) (est : Page → Nat → Int) (k : Nat)
    (hne : ∀ pg ∈ s.pages, pg ≠ [])
    (hsorted : List.Pairwise (fun r t => r.key < t.key) s.pages.flatten)
    (hsp : SplState s.spl.maxError (s.pages.map pageMinKey) s.spl)
    (hN : s.pages.length ≤ s.endDataPage)
    (r : Rec) (hr : r ∈ s.pages.flatten) (hrk : r.key = k) :
    sbitsGet s est k = some r := by
  obtain ⟨pgl, hpgl_mem, hr_pg⟩ := List.mem_flatten.mp hr
  obtain ⟨pf, hpf⟩ := List.mem_iff_get.mp hpgl_mem
  obtain ⟨jf, hjf⟩ := List.mem_iff_get.mp hr_pg
  have hpf' : s.pages.get ⟨pf.1, pf.2⟩ = pgl := hpf
  have hjf' : pgl.get ⟨jf.1, jf.2⟩ = r := hjf
  obtain ⟨hin, hcross⟩ := List.pairwise_flatten.mp hsorted
  have hcross' : ∀ i j (hi : i < s.pages.length) (hj : j < s.pages.length),
      i < j → ∀ x ∈ s.pages.get ⟨i, hi⟩, ∀ y ∈ s.pages.get ⟨j, hj⟩,
      x.key < y.key := by
    intro i j hi hj hij
    have h2 := List.pairwise_iff_getElem.mp hcross i j hi hj hij
    simpa [List.get_eq_getElem] using h2
  have hrmem : r ∈ s.pages.get ⟨pf.1, pf.2⟩ := by
    rw [hpf']
    exact hr_pg
  have hpg_sorted := hin pgl hpgl_mem
  have hatlo : pageMinKey (s.pages.get ⟨pf.1, pf.2⟩) ≤ k := by
    rw [hpf', ← hrk]
    exact pageMinKey_le pgl hpg_sorted r hr_pg
  have hathi : k ≤ pageMaxKey (s.pages.get ⟨pf.1, pf.2⟩) := by
    rw [hpf', ← hrk]
    exact le_pageMaxKey pgl hpg_sorted r hr_pg
  have hleft : ∀ i (h : i < s.pages.length), i < pf.1 →
      pageMinKey (s.pages.get ⟨i, h⟩) ≤ k ∧
      pageMaxKey (s.pages.get ⟨i, h⟩) < k := by
    intro i hi hip
    have hnei := hne _ (List.get_mem s.pages _ hi)
    obtain ⟨x, hx, hxk⟩ := pageMaxKey_mem (s.pages.get ⟨i, hi⟩) hnei
    obtain ⟨x0, hx0, hx0k⟩ := pageMinKey_mem (s.pages.get ⟨i, hi⟩) hnei
    have h1 := hcross' i pf.1 hi pf.2 hip x hx r hrmem
    have h0 := hcross' i pf.1 hi pf.2 hip x0 hx0 r hrmem
    constructor
    · rw [← hx0k]
      omega
    · rw [← hxk]
      omega
  have hright : ∀ i (h : i < s.pages.length), pf.1 < i →
      k < pageMinKey (s.pages.get ⟨i, h⟩) := by
    intro i hi hip
    have hnei := hne _ (List.get_mem s.pages _ hi)
    obtain ⟨x0, hx0, hx0k⟩ := pageMinKey_mem (s.pages.get ⟨i, hi⟩) hnei
    have h0 := hcross' pf.1 i pf.2 hi hip r hrmem x0 hx0
    rw [← hx0k]
    omega
  have hxs_sort : List.Pairwise (· < ·) (s.pages.map pageMinKey) :=
    pairwise_minKey s.pages hne hsorted
  have hxs_len : (s.pages.map pageMinKey).length = s.pages.length :=
    List.length_map _ _
  have hgetD : ∀ i (hi : i < s.pages.length),
      (s.pages.map pageMinKey).getD i 0 =
      pageMinKey (s.pages.get ⟨i, hi⟩) := by
    intro i hi
    rw [List.getD_eq_getElem _ _ (by rw [hxs_len]; exact hi)]
    simp [List.get_eq_getElem]
  have hbr := splineFind_bracket s.spl.maxError (s.pages.map pageMinKey)
    s.spl hsp hxs_sort k pf.1 (by rw [hxs_len]; exact pf.2) ?hpk ?hkp1
  case hpk =>
    rw [hgetD pf.1 pf.2]
    exact hatlo
  case hkp1 =>
    intro h1
    rw [hxs_len] at h1
    rw [hgetD (pf.1 + 1) h1]
    exact hright (pf.1 + 1) h1 (by omega)
  rw [hxs_len] at hbr
  obtain ⟨hb1, hb2, hb3, hb4, hb5, hb6⟩ := hbr
  have hplen := pf.2
  have hlin := linearLoop_finds s.pages s.endDataPage k pf.1 pf.2 hN
    hleft hright hatlo hathi (s.pages.length + 2)
    ((splineFind s.spl k 0 s.pages.length).1 : Int)
    ((splineFind s.spl k 0 s.pages.length).2.1 : Int)
    ((splineFind s.spl k 0 s.pages.length).2.2 : Int)
    (by omega) (by omega) (by omega) (by omega) (by omega) (by omega)
    (by omega)
  rw [hpf'] at hlin
  have hi0 : jf.1 < pgl.length := jf.2
  have hkey_i0 : (pgl.get ⟨jf.1, jf.2⟩).key = k := by
    rw [hjf']
    exact hrk
  simp only [sbitsGet]
  rw [if_neg (by omega)]
  split
  · next heq =>
    rw [hlin] at heq
    cases heq
  · next pg heq =>
    rw [hlin] at heq
    injection heq with heq
    subst heq
    have hsearch := sbitsSearchNode_finds (est pgl k) pgl k jf.1
      hpg_sorted jf.2 hkey_i0
    split
    · next heq2 =>
      rw [hsearch] at heq2
      cases heq2
    · next i heq2 =>
      rw [hsearch] at heq2
      injection heq2 with heq2
      subst heq2
      rw [List.get?_eq_get hi0]
      exact congrArg some hjf'


/-- C1 (amended): if the keys handed to `put` strictly increase, at least
one record is inserted, and the store capacity is not exceeded (so the
data stream never wraps), then after a final `flush` a `get` of every
inserted key returns that key's data, for every key-location estimate the
in-page search may start from. -/
theorem claim_C1_amended (maxR numPages eraseSize : Nat) (useV : Bool)
    (pageSize keySize numVarPages maxError : Nat)
    (kds : List (Nat × Nat)) (est : Page → Nat → Int)
    (hmR : 0 < maxR) (hne : kds ≠ [])
    (hsorted : List.Pairwise (fun a b => a.1 < b.1) kds)
    (hcap : kds.length ≤ maxR * numPages) :
    ∀ kd ∈ kds,
      getData (sbitsFlush (runPuts (initE maxR numPages eraseSize useV
        pageSize keySize numVarPages maxError) kds)).2 est kd.1 =
      some kd.2 := by
  intro kd hkd
  have hs0emp : allRecs (initE maxR numPages eraseSize useV pageSize
      keySize numVarPages maxError) = [] := rfl
  obtain ⟨hinv, hfr1, hfr2, rs, hall, hkeys, hdata⟩ :=
    runPuts_spec kds
      (initE maxR numPages eraseSize useV pageSize keySize numVarPages
        maxError)
      (engInv_initE maxR numPages eraseSize useV pageSize keySize
        numVarPages maxError hmR)
      hsorted
      (by intro r hr
          rw [hs0emp] at hr
          cases hr)
  rw [hs0emp, List.nil_append] at hall
  have hwne := runPuts_wbuf_ne kds hne
    (initE maxR numPages eraseSize useV pageSize keySize numVarPages
      maxError)
  obtain ⟨hfne, hfsorted, hfsp, hflen, hfflat, hfend⟩ :=
    engInv_flushed _ hinv hwne
  obtain ⟨hmR', hlen', hwlen', _, _⟩ := hinv
  have hflatlen : (runPuts (initE maxR numPages eraseSize useV pageSize
      keySize numVarPages maxError) kds).pages.flatten.length =
      (runPuts (initE maxR numPages eraseSize useV pageSize keySize
        numVarPages maxError) kds).pages.length * maxR := by
    rw [flatten_length_const _ _ hlen', hfr1]
    rfl
  have hlenrs : rs.length = kds.length := by
    have h2 := congrArg List.length hkeys
    simpa using h2
  have hallen := congrArg List.length hall
  simp only [allRecs, List.length_append] at hallen
  have hwlen1 : 0 < (runPuts (initE maxR numPages eraseSize useV pageSize
      keySize numVarPages maxError) kds).wbuf.length :=
    List.length_pos.mpr hwne
  have hpages_lt : (runPuts (initE maxR numPages eraseSize useV pageSize
      keySize numVarPages maxError) kds).pages.length < numPages := by
    have hlt : (runPuts (initE maxR numPages eraseSize useV pageSize
        keySize numVarPages maxError) kds).pages.length * maxR <
        numPages * maxR := by
      have hc2 : kds.length ≤ numPages * maxR := by
        rw [Nat.mul_comm]
        exact hcap
      omega
    exact Nat.lt_of_mul_lt_mul_right hlt
  have hcapf : (sbitsFlush (runPuts (initE maxR numPages eraseSize useV
      pageSize keySize numVarPages maxError) kds)).2.pages.length ≤
      (sbitsFlush (runPuts (initE maxR numPages eraseSize useV pageSize
        keySize numVarPages maxError) kds)).2.endDataPage := by
    rw [hflen, hfend, hfr2]
    exact hpages_lt
  obtain ⟨n, hn⟩ := List.mem_iff_get.mp hkd
  have hnr : n.1 < rs.length := by
    rw [hlenrs]
    exact n.2
  have hn' : kds.get ⟨n.1, n.2⟩ = kd := hn
  have hn2 : kds[n.1] = kd := hn'
  have hrkey : (rs.get ⟨n.1, hnr⟩).key = kd.1 := by
    have h1 := congrArg (fun l => l.get? n.1) hkeys
    simp only [List.get?_eq_getElem?, List.getElem?_map] at h1
    rw [List.getElem?_eq_getElem hnr, List.getElem?_eq_getElem n.2] at h1
    simp only [Option.map_some'] at h1
    injection h1 with h1
    rw [List.get_eq_getElem, h1, hn2]
  have hrdata : (rs.get ⟨n.1, hnr⟩).data = kd.2 := by
    have h1 := congrArg (fun l => l.get? n.1) hdata
    simp only [List.get?_eq_getElem?, List.getElem?_map] at h1
    rw [List.getElem?_eq_getElem hnr, List.getElem?_eq_getElem n.2] at h1
    simp only [Option.map_some'] at h1
    injection h1 with h1
    rw [List.get_eq_getElem, h1, hn2]
  have hrmem : rs.get ⟨n.1, hnr⟩ ∈ (sbitsFlush (runPuts (initE maxR
      numPages eraseSize useV pageSize keySize numVarPages maxError)
      kds)).2.pages.flatten := by
    rw [hfflat, hall]
    exact List.get_mem rs _ hnr
  have hget := get_finds _ est kd.1 hfne hfsorted hfsp hcapf
    (rs.get ⟨n.1, hnr⟩) hrmem hrkey
  unfold getData
  rw [hget, Option.map_some', hrdata]

/-- C1: counterexample to the claim as stated. Keys arriving in
non-decreasing order may repeat; after `put(5,1); put(5,2); flush()` the
two records share key 5 and `get(5)` cannot return both values, so for
one of the inserted pairs `get` does not copy that pair's data. -/
theorem claim_C1_counterexample :
    List.Chain' (· ≤ ·) ([(5, 1), (5, 2)].map Prod.fst) ∧
    ¬ ∀ kd ∈ [(5, 1), (5, 2)],
      getData (sbitsFlush (runPuts (initE 1 8 2 false 512 4 0 2)
        [(5, 1), (5, 2)])).2 (fun _ _ => 0) kd.1 = some kd.2 := by
  constructor
  · simp
  · decide

/-- C1 (witness): a concrete strictly-increasing run through the amended
theorem: three records inserted over two pages plus the final partial
page, each retrieved with its own data. -/
theorem claim_C1_witness :
    getData (sbitsFlush (runPuts (initE 2 8 2 false 512 4 0 2)
      [(1, 10), (3, 30), (4, 40)])).2 (fun _ _ => 0) 3 = some 30 :=
  claim_C1_amended 2 8 2 false 512 4 0 2 [(1, 10), (3, 30), (4, 40)]
    (fun _ _ => 0) (by decide) (by decide) (by decide) (by decide)
    (3, 30) (by decide)


theorem writeVariablePage_frame2 (s : EState) :
    (writeVariablePage s).currentVarLoc = s.currentVarLoc ∧
    (writeVariablePage s).pageSize = s.pageSize ∧
    (writeVariablePage s).keySize = s.keySize ∧
    (writeVariablePage s).varPagesWritten = s.varPagesWritten + 1 ∧
    (writeVariablePage s).useVdata = s.useVdata := by
  simp only [writeVariablePage]
  split_ifs <;> exact ⟨rfl, rfl, rfl, rfl, rfl⟩

theorem sbitsPut_var_frame (s : EState) (k d : Nat) :
    (sbitsPut s k d).2.currentVarLoc = s.currentVarLoc ∧
    (sbitsPut s k d).2.pageSize = s.pageSize ∧
    (sbitsPut s k d).2.keySize = s.keySize := by
  simp only [sbitsPut, flushDataPage]
  split_ifs <;> exact ⟨rfl, rfl, rfl⟩

theorem sbitsFlush_state (s : EState) :
    (sbitsFlush s).2.pages = s.pages ++ [s.wbuf] ∧
    (sbitsFlush s).2.wbuf = [] ∧
    (sbitsFlush s).2.spl =
      splineAdd s.spl (pageMinKey s.wbuf) s.pages.length ∧
    (sbitsFlush s).2.endDataPage = s.endDataPage ∧
    (sbitsFlush s).2.maxRecordsPerPage = s.maxRecordsPerPage := by
  simp only [sbitsFlush]
  split_ifs with hv
  · have hfr := writeVariablePage_frame (flushDataPage s)
    rw [hfr.1, hfr.2.1, hfr.2.2.1, hfr.2.2.2.1, hfr.2.2.2.2.1]
    exact ⟨rfl, rfl, rfl, rfl, rfl⟩
  · exact ⟨rfl, rfl, rfl, rfl, rfl⟩

theorem c2Inv_initE (maxR numPages eraseSize : Nat) (useV : Bool)
    (pageSize keySize numVarPages maxError : Nat) (h : 0 < maxR) :
    C2Inv (initE maxR numPages eraseSize useV pageSize keySize
      numVarPages maxError) := by
  refine ⟨h, ?_, ?_⟩ <;> simp [allRecs, initE]

theorem c2Inv_put (s : EState) (k d : Nat) (h : C2Inv s)
    (hk : lastInsertedKey s ≤ k) : C2Inv (sbitsPut s k d).2 := by
  obtain ⟨hmR, hchain, hne⟩ := h
  have hlast : ∀ x : Rec, (allRecs s).getLast? = some x → x.key ≤ k := by
    intro x hx
    unfold lastInsertedKey pageMaxKey at hk
    have hx' : (s.pages.flatten ++ s.wbuf).getLast? = some x := hx
    rw [hx'] at hk
    simpa using hk
  have hchain2 : ∀ r0 : Rec, r0.key = k →
      List.Chain' (fun r t => r.key ≤ t.key) (allRecs s ++ [r0]) := by
    intro r0 hr0
    refine List.chain'_append.mpr ⟨hchain, List.chain'_singleton _, ?_⟩
    intro x hx y hy
    simp only [List.head?_cons, Option.mem_def, Option.some.injEq] at hy
    rw [← hy, hr0]
    exact hlast x (Option.mem_def.mp hx)
  by_cases hfull : s.maxRecordsPerPage ≤ s.wbuf.length
  · rw [sbitsPut_of_full s k d hfull]
    refine ⟨hmR, ?_, ?_⟩
    · have h2 := hchain2 (mkRec (flushDataPage s) k d) rfl
      simpa [allRecs, flushDataPage, List.flatten_append] using h2
    · intro pg hpg
      rcases List.mem_append.mp hpg with h1 | h1
      · exact hne pg h1
      · rw [List.mem_singleton.mp h1]
        intro hnil
        rw [hnil] at hfull
        simp at hfull
        omega
  · rw [sbitsPut_of_lt s k d (by omega)]
    refine ⟨hmR, ?_, hne⟩
    have h2 := hchain2 (mkRec s k d) rfl
    simpa [allRecs] using h2

theorem c2Inv_flushOp (s : EState) (h : C2Inv s) (hwne : s.wbuf ≠ []) :
    C2Inv (sbitsFlush s).2 := by
  obtain ⟨hmR, hchain, hne⟩ := h
  obtain ⟨hp, hw, hspl, hend, hmax⟩ := sbitsFlush_state s
  refine ⟨by rw [hmax]; exact hmR, ?_, ?_⟩
  · have heq : allRecs (sbitsFlush s).2 = allRecs s := by
      unfold allRecs
      rw [hp, hw, List.flatten_append]
      simp
    rw [heq]
    exact hchain
  · rw [hp]
    intro pg hpg
    rcases List.mem_append.mp hpg with h1 | h1
    · exact hne pg h1
    · rw [List.mem_singleton.mp h1]
      exact hwne

theorem c2Inv_runOps (ops : List Op) : ∀ s : EState, C2Inv s →
    SafeOps s ops → C2Inv (runOps s ops) := by
  induction ops with
  | nil => intro s h _; exact h
  | cons op rest ih =>
    cases op with
    | put k d =>
      intro s h hsafe
      exact ih _ (c2Inv_put s k d h hsafe.1) hsafe.2
    | flushOp =>
      intro s h hsafe
      exact ih _ (c2Inv_flushOp s h hsafe.1) hsafe.2

theorem pages_chain_of_c2Inv (s : EState) (h : C2Inv s) :
    List.Chain' (fun p q => pageMaxKey p ≤ pageMinKey q) s.pages := by
  obtain ⟨hmR, hchain, hne⟩ := h
  haveI : IsTrans Rec (fun r t => r.key ≤ t.key) :=
    ⟨fun a b c hab hbc => le_trans hab hbc⟩
  have hpair := List.chain'_iff_pairwise.mp hchain
  simp only [allRecs] at hpair
  have hpairf := (List.pairwise_append.mp hpair).1
  obtain ⟨hin, hcross⟩ := List.pairwise_flatten.mp hpairf
  rw [List.chain'_iff_get]
  intro i hi
  have hi1 : i < s.pages.length := by omega
  have hi2 : i + 1 < s.pages.length := by omega
  have hcrossg := List.pairwise_iff_getElem.mp hcross i (i + 1) hi1 hi2
    (by omega)
  have hne1 := hne _ (List.get_mem s.pages _ hi1)
  have hne2 := hne _ (List.get_mem s.pages _ hi2)
  obtain ⟨x, hx, hxk⟩ := pageMaxKey_mem _ hne1
  obtain ⟨y, hy, hyk⟩ := pageMinKey_mem _ hne2
  rw [← hxk, ← hyk]
  exact hcrossg x hx y hy

/-- C2 (amended): under the put contract and provided no explicit flush
is issued on an empty write buffer, after any operation sequence the
flushed data pages have non-decreasing key ranges: the largest key of
each page is at most the smallest key of the next. -/
theorem claim_C2_amended (maxR numPages eraseSize : Nat) (useV : Bool)
    (pageSize keySize numVarPages maxError : Nat) (ops : List Op)
    (hmR : 0 < maxR)
    (hsafe : SafeOps (initE maxR numPages eraseSize useV pageSize keySize
      numVarPages maxError) ops) :
    List.Chain' (fun p q => pageMaxKey p ≤ pageMinKey q)
      (runOps (initE maxR numPages eraseSize useV pageSize keySize
        numVarPages maxError) ops).pages :=
  pages_chain_of_c2Inv _ (c2Inv_runOps ops _
    (c2Inv_initE maxR numPages eraseSize useV pageSize keySize numVarPages
      maxError hmR) hsafe)

/-- C2: counterexample to the claim as stated. The operation sequence
`put(5,7); flush(); flush()` satisfies the non-decreasing-key contract,
yet the second flush writes an empty page whose `minKey` reads as 0, so
the flushed pages `[{5}], []` violate `maxKey(p_0) ≤ minKey(p_1)`. -/
theorem claim_C2_counterexample :
    ContractOps (initE 2 8 2 false 512 4 0 2)
      [.put 5 7, .flushOp, .flushOp] ∧
    ¬ List.Chain' (fun p q => pageMaxKey p ≤ pageMinKey q)
      (runOps (initE 2 8 2 false 512 4 0 2)
        [.put 5 7, .flushOp, .flushOp]).pages := by
  refine ⟨by decide, ?_⟩
  intro h
  rw [show (runOps (initE 2 8 2 false 512 4 0 2)
      [.put 5 7, .flushOp, .flushOp]).pages =
      [[{ key := 5, data := 7, varOff := none }], []] from by decide] at h
  exact absurd (List.chain'_cons.mp h).1 (by decide)

/-- C2 (witness): a concrete contract-respecting run with equal keys
across a page boundary, through the amended theorem. -/
theorem claim_C2_witness :
    List.Chain' (fun p q => pageMaxKey p ≤ pageMinKey q)
      (runOps (initE 2 8 2 false 512 4 0 2)
        [.put 1 10, .put 2 20, .put 2 30, .flushOp]).pages :=
  claim_C2_amended 2 8 2 false 512 4 0 2
    [.put 1 10, .put 2 20, .put 2 30, .flushOp] (by decide) (by decide)

/-- C5 (amended): the flush of a full write slot happens at the start of
the NEXT put: when the buffer already holds `maxRecordsPerPage` records,
that next put writes the buffered page out and starts a fresh page whose
only record (position 0) is the new one. -/
theorem claim_C5_amended (s : EState) (k d : Nat)
    (h : s.wbuf.length = s.maxRecordsPerPage) :
    (sbitsPut s k d).2.pages = s.pages ++ [s.wbuf] ∧
    (sbitsPut s k d).2.wbuf = [mkRec (flushDataPage s) k d] := by
  rw [sbitsPut_of_full s k d (le_of_eq h.symm)]
  exact ⟨rfl, rfl⟩

/-- C5: counterexample to the claim as stated. With
`maxRecordsPerPage = 2`, the second put fills the write slot to exactly
2 records yet flushes nothing: no page has been written
(`pages = []`) and the slot still holds both records. -/
theorem claim_C5_counterexample :
    (runPuts (initE 2 8 2 false 512 4 0 2) [(1, 1), (2, 2)]).pages = [] ∧
    (runPuts (initE 2 8 2 false 512 4 0 2) [(1, 1), (2, 2)]).wbuf.length =
      (runPuts (initE 2 8 2 false 512 4 0 2)
        [(1, 1), (2, 2)]).maxRecordsPerPage := by
  decide

/-- C5 (witness): the put following the filling one does flush the page
and places its record at position 0 of a fresh slot. -/
theorem claim_C5_witness :
    (runPuts (initE 2 8 2 false 512 4 0 2) [(1, 1), (2, 2)]).wbuf.length =
      (runPuts (initE 2 8 2 false 512 4 0 2)
        [(1, 1), (2, 2)]).maxRecordsPerPage ∧
    (sbitsPut (runPuts (initE 2 8 2 false 512 4 0 2) [(1, 1), (2, 2)])
      3 3).2.pages =
      (runPuts (initE 2 8 2 false 512 4 0 2) [(1, 1), (2, 2)]).pages ++
        [(runPuts (initE 2 8 2 false 512 4 0 2) [(1, 1), (2, 2)]).wbuf] ∧
    (sbitsPut (runPuts (initE 2 8 2 false 512 4 0 2) [(1, 1), (2, 2)])
      3 3).2.wbuf =
      [mkRec (flushDataPage (runPuts (initE 2 8 2 false 512 4 0 2)
        [(1, 1), (2, 2)])) 3 3] :=
  ⟨by decide, claim_C5_amended _ 3 3 (by decide)⟩

/-- C6: when `getVar` finds the fixed record, its var offset is not the
no-data sentinel, and the key is below `minVarRecordId`, the result is
Stale: return code 1 with a NULL blob pointer. -/
theorem claim_C6 (s : EState) (est : Page → Nat → Int) (k : Nat) (r : Rec)
    (off : Nat) (hget : sbitsGet s est k = some r)
    (hoff : r.varOff = some off) (hsent : off ≠ SBITS_NO_VAR_DATA)
    (hmin : k < s.minVarRecordId) :
    sbitsGetVar s est k = GetVarResult.stale ∧
    getVarRet (sbitsGetVar s est k) = 1 ∧
    getVarBlob (sbitsGetVar s est k) = none := by
  have hv : sbitsGetVar s est k = GetVarResult.stale := by
    unfold sbitsGetVar
    split
    · next heq =>
      rw [hget] at heq
      cases heq
    · next r2 heq =>
      rw [hget] at heq
      injection heq with heq
      subst heq
      split
      · next hoff2 =>
        rw [hoff] at hoff2
        cases hoff2
      · next off2 hoff2 =>
        rw [hoff] at hoff2
        injection hoff2 with hoff2
        subst hoff2
        rw [if_neg hsent, if_pos hmin]
  exact ⟨hv, by rw [hv]; rfl, by rw [hv]; rfl⟩

/-- C6 (witness): a concrete store with one record whose blob was
reclaimed (`minVarRecordId` above its key). -/
theorem claim_C6_witness :
    sbitsGetVar { initE 1 8 2 true 512 4 2 2 with
      pages := [[{ key := 5, data := 7, varOff := some 3 }]],
      spl := { pts := [(5, 0)], corrUp := (0, 0), corrLo := (0, 0),
               maxError := 2 },
      minVarRecordId := 10 } (fun _ _ => 0) 5 = GetVarResult.stale :=
  (claim_C6 _ (fun _ _ => 0) 5 { key := 5, data := 7, varOff := some 3 } 3
    (by decide) (by decide) (by decide) (by decide)).1

/-- C7: when `putVar` receives a blob and fewer than 4 bytes remain in
the current var page, the space check writes that page out (one more var
page written) and the write position advances to just past the next
page's `keySize`-byte header; the 4-byte length header is then laid down
at that position, entirely inside one page. -/
theorem claim_C7 (s : EState) (k d len : Nat) (hv : s.useVdata = true)
    (hspace : s.pageSize - 4 < s.currentVarLoc % s.pageSize)
    (hps : 0 < s.pageSize) (hks : s.keySize + 4 ≤ s.pageSize) :
    (sbitsPutVar s k d (some len)).2.2.prepWrote = true ∧
    (varPrep s).1.currentVarLoc % s.pageSize = s.keySize ∧
    (varPrep s).1.varPagesWritten = s.varPagesWritten + 1 ∧
    (sbitsPutVar s k d (some len)).2.2.lenPos % s.pageSize = s.keySize ∧
    (sbitsPutVar s k d (some len)).2.2.lenPos % s.pageSize + 4 ≤
      s.pageSize := by
  have hcur : (varPrep s).1.currentVarLoc =
      s.currentVarLoc + (s.pageSize - s.currentVarLoc % s.pageSize) +
        s.keySize := by
    unfold varPrep
    rw [if_pos hspace]
    dsimp only
    rw [(writeVariablePage_frame2 s).1, (writeVariablePage_frame2 s).2.1,
      (writeVariablePage_frame2 s).2.2.1]
  have hmod : (varPrep s).1.currentVarLoc % s.pageSize = s.keySize := by
    rw [hcur]
    obtain ⟨q, m, hqm, hm⟩ : ∃ q m, s.currentVarLoc = s.pageSize * q + m ∧
        m < s.pageSize :=
      ⟨s.currentVarLoc / s.pageSize, s.currentVarLoc % s.pageSize,
        (Nat.div_add_mod _ _).symm, Nat.mod_lt _ hps⟩
    have hmm : s.currentVarLoc % s.pageSize = m := by
      rw [hqm, Nat.mul_add_mod]
      exact Nat.mod_eq_of_lt hm
    rw [hmm, hqm]
    have h3 : s.pageSize * (q + 1) = s.pageSize * q + s.pageSize :=
      Nat.mul_succ _ _
    have h2 : s.pageSize * q + m + (s.pageSize - m) + s.keySize =
        s.pageSize * (q + 1) + s.keySize := by omega
    rw [h2, Nat.mul_add_mod]
    exact Nat.mod_eq_of_lt (by omega)
  have hprep2 : (varPrep s).2 = true := by
    unfold varPrep
    rw [if_pos hspace]
  have hlenPos : (sbitsPutVar s k d (some len)).2.2.lenPos =
      (varPrep s).1.currentVarLoc := by
    simp only [sbitsPutVar]
    rw [if_pos hv]
    dsimp only
    rw [(sbitsPut_var_frame _ k d).1]
  have hwrote : (sbitsPutVar s k d (some len)).2.2.prepWrote =
      (varPrep s).2 := by
    simp only [sbitsPutVar]
    rw [if_pos hv]
  refine ⟨?_, hmod, ?_, ?_, ?_⟩
  · rw [hwrote, hprep2]
  · unfold varPrep
    rw [if_pos hspace]
    dsimp only
    exact (writeVariablePage_frame2 s).2.2.2.1
  · rw [hlenPos, hmod]
  · rw [hlenPos, hmod]
    exact hks

/-- C7 (witness): page size 16, key size 4, write position 14 — only two
bytes left in the var page; the length header lands at offset 4 of the
next page. -/
theorem claim_C7_witness :
    (sbitsPutVar { initE 2 8 2 true 16 4 4 2 with currentVarLoc := 14 }
      9 9 (some 5)).2.2.prepWrote = true ∧
    (varPrep { initE 2 8 2 true 16 4 4 2 with
      currentVarLoc := 14 }).1.currentVarLoc % 16 = 4 :=
  ⟨(claim_C7 _ 9 9 5 (by decide) (by decide) (by decide) (by decide)).1,
   (claim_C7 { initE 2 8 2 true 16 4 4 2 with currentVarLoc := 14 }
     9 9 5 (by decide) (by decide) (by decide) (by decide)).2.1⟩

/-- C8: `get` on a store into which nothing was ever put fails for every
key (the C code returns −1 after the empty-store check) and produces no
record. -/
theorem claim_C8 (maxR numPages eraseSize : Nat) (useV : Bool)
    (pageSize keySize numVarPages maxError : Nat)
    (est : Page → Nat → Int) (k : Nat) :
    sbitsGet (initE maxR numPages eraseSize useV pageSize keySize
      numVarPages maxError) est k = none := by
  simp [sbitsGet, initE]

/-- C9: `putVar` on a store configured without variable data fails with
−1 and leaves the state untouched. -/
theorem claim_C9 (s : EState) (hv : s.useVdata = false) (k d : Nat)
    (blob : Option Nat) :
    sbitsPutVar s k d blob = (-1, s, ⟨false, 0⟩) := by
  simp only [sbitsPutVar]
  rw [if_neg (by simp [hv])]

/-- C9 (witness): a concrete no-var-data store rejects `putVar`. -/
theorem claim_C9_witness :
    sbitsPutVar (initE 2 8 2 false 512 4 0 2) 5 7 (some 9) =
      (-1, initE 2 8 2 false 512 4 0 2, ⟨false, 0⟩) :=
  claim_C9 (initE 2 8 2 false 512 4 0 2) (by decide) 5 7 (some 9)

/-- C10 (implicit): `put` returns 0 in every state for every key and
data — the non-decreasing-key contract is never checked — and the record
is appended to the write slot regardless. -/
theorem claim_C10 (s : EState) (k d : Nat) :
    (sbitsPut s k d).1 = 0 ∧
    (sbitsPut s k d).2.wbuf.getLast? =
      some (mkRec (if s.maxRecordsPerPage ≤ s.wbuf.length then
        flushDataPage s else s) k d) := by
  constructor
  · rfl
  · simp only [sbitsPut]
    exact List.getLast?_concat _


end SBITS
